import Mathlib

/-!
# Verification of the MySQL migration planner (`sql/mysql/migrate.go`)

A shallow embedding of the planner that turns a list of abstract schema
changes into an ordered migration plan of forward/reverse SQL statements.
Pure Go functions become Lean functions; the mutable planning state
(`state.Changes`, the table mutated by `column`) is threaded explicitly;
fallible code returns `Except String`; the Go slice mutation performed by
`skipAutoChanges` while ranging over the slice is modelled with an explicit
backing array and live length, and a Go runtime panic is modelled as an
`Except.error` carrying the runtime message.

Definitions whose Go source lives outside the planner file (the `schema`
data model, the `sqlx` statement builder, literal helpers) are marked
`Modelled from the spec:` and follow the specification's description of
those collaborators.
-/

namespace Atlas

/-- Modelled from the spec: schema/element attributes carried by schema
objects — character set, collation, comment, the MySQL auto-increment
attribute (with starting value), the MySQL `ON UPDATE` column clause and
the MySQL `CHECK` marker attribute (`sql/schema` and mysql attribute types
are not part of the planner source file). -/
inductive Attr where
  | charset (v : String)
  | collation (v : String)
  | comment (text : String)
  | autoIncrement (v : Int)
  | onUpdate (a : String)
  | check
  deriving DecidableEq, Repr

/-- Modelled from the spec: the extra DDL clauses `IfNotExists`/`IfExists`
attached to create/drop changes (`schema.IfNotExists`, `schema.IfExists`). -/
inductive Clause where
  | ifNotExists
  | ifExists
  deriving DecidableEq, Repr

/-- Modelled from the spec: the column type descriptor. The planner only
discriminates numeric types (integer/decimal/float), time types, the JSON
type and "everything else"; each carries the raw SQL rendering that
`mustFormat` would produce for it. -/
inductive CType where
  | intT (raw : String)
  | floatT (raw : String)
  | decimalT (raw : String)
  | timeT (raw : String)
  | jsonT
  | otherT (raw : String)
  deriving DecidableEq, Repr

/-- Modelled from the spec: `mustFormat` renders a column type to its SQL
text (the real formatter lives outside the planner file). -/
def mustFormat : CType → String
  | .intT raw => raw
  | .floatT raw => raw
  | .decimalT raw => raw
  | .timeT raw => raw
  | .jsonT => "json"
  | .otherT raw => raw

/-- Modelled from the spec: `hasNumericDefault` — defaults on numeric-typed
columns are never quoted. -/
def hasNumericDefault : CType → Bool
  | .intT _ => true
  | .floatT _ => true
  | .decimalT _ => true
  | _ => false

def isTimeType : CType → Bool
  | .timeT _ => true
  | _ => false

def isJSONType : CType → Bool
  | .jsonT => true
  | _ => false

/-- A column default: a literal value or a raw expression
(`schema.Literal` / `schema.RawExpr`). -/
inductive DefaultVal where
  | literal (v : String)
  | rawExpr (x : String)
  deriving DecidableEq, Repr

/-- Column type wrapper (`schema.ColumnType`): type descriptor plus
nullability. -/
structure ColumnType where
  typ : CType
  null : Bool
  deriving DecidableEq, Repr

/-- Modelled from the spec: a column owns a name, a type descriptor,
an optional default and dialect attributes. -/
structure Column where
  name : String
  ctype : ColumnType
  default : Option DefaultVal := none
  attrs : List Attr := []
  deriving DecidableEq, Repr

/-- Modelled from the spec: one part of an index — a column (by name, per
the spec's by-name reference model) or a raw expression, with attributes
(a collation attribute valued "D" renders `DESC`). -/
structure IndexPart where
  column : Option String := none
  expr : Option String := none
  attrs : List Attr := []
  deriving DecidableEq, Repr

/-- Modelled from the spec: an index — name, uniqueness, ordered parts and
attributes. -/
structure Index where
  name : String
  unique : Bool := false
  parts : List IndexPart := []
  attrs : List Attr := []
  deriving DecidableEq, Repr

/-- Modelled from the spec: a foreign key referencing a table and column
set by name, with optional referential actions. -/
structure ForeignKey where
  symbol : String
  columns : List String := []
  refTable : String := ""
  refColumns : List String := []
  onUpdate : String := ""
  onDelete : String := ""
  deriving DecidableEq, Repr

/-- Modelled from the spec: a table owns ordered columns, an optional
primary key, secondary indexes, foreign keys and attributes;
`schemaAttrs` models `t.Schema.Attrs` (used for the collation lookup),
`none` standing for a nil schema pointer. -/
structure Table where
  name : String
  columns : List Column := []
  primaryKey : Option Index := none
  indexes : List Index := []
  foreignKeys : List ForeignKey := []
  attrs : List Attr := []
  schemaAttrs : Option (List Attr) := none
  deriving DecidableEq, Repr

/-- Modelled from the spec: a top-level schema object (for
`AddSchema`/`DropSchema`): name and attributes. -/
structure SchemaObj where
  name : String
  attrs : List Attr := []
  deriving DecidableEq, Repr

/-- Modelled from the spec: `schema.ChangeKind` is a bitmask recording
which sub-fields of a modified element changed. -/
def ChangeKind := Nat

/-- Modelled from the spec: distinct bits of the change bitmask for "the
referenced table changed" and "the referenced columns changed". -/
def changeRefTable : Nat := 16

def changeRefColumn : Nat := 32

/-- Modelled from the spec: `ChangeKind.Is` — the bitmask contains (part
of) the queried flags. -/
def kindIs (k c : Nat) : Bool := k &&& c != 0

/-- Modelled from the spec: the closed sum of change variants consumed by
the planner (`schema.Change`). `Modify` variants carry the from/to
snapshots plus the changed-sub-field bitmask. -/
inductive Change where
  | addSchema (s : SchemaObj) (extra : List Clause)
  | dropSchema (s : SchemaObj) (extra : List Clause)
  | addTable (t : Table) (extra : List Clause)
  | dropTable (t : Table) (extra : List Clause)
  | modifyTable (t : Table) (changes : List Change)
  | addColumn (c : Column)
  | modifyColumn (src dst : Column) (kind : Nat)
  | dropColumn (c : Column)
  | addIndex (i : Index)
  | modifyIndex (src dst : Index) (kind : Nat)
  | dropIndex (i : Index)
  | addForeignKey (f : ForeignKey)
  | modifyForeignKey (src dst : ForeignKey) (kind : Nat)
  | dropForeignKey (f : ForeignKey)
  | addAttr (a : Attr)
  | modifyAttr (src dst : Attr)
  | dropAttr (a : Attr)

/-- An emitted migration change (`migrate.Change`): forward SQL, optional
reverse SQL (empty string = not reversible), comment, and the source
change. -/
structure MChange where
  cmd : String
  source : Change
  reverse : String := ""
  comment : String := ""

/-- A migration plan (`migrate.Plan`). -/
structure Plan where
  name : String
  reversible : Bool
  transactional : Bool
  changes : List MChange

/-- Modelled from the spec: the read-only dialect/version probe carried by
the connection — whether the dialect is MariaDB, whether its version is
below 10.4.3 (the JSON `CHECK` compatibility cut-off), and the default
collation. -/
structure Conn where
  mariadb : Bool := false
  ltV1043 : Bool := false
  collate : String := ""
  deriving DecidableEq, Repr

/-- Modelled from the spec: `sqlx.Builder` — an append-only token
accumulator with identifier quoting.  The buffer never carries a trailing
separator; `pushTok` space-separates tokens. -/
structure Builder where
  buf : String
  quoteChar : Char := '`'
  deriving DecidableEq, Repr

namespace Builder

/-- Append one token, space-separated from the existing buffer. -/
def pushTok (b : Builder) (s : String) : Builder :=
  if s = "" then b
  else if b.buf = "" then { b with buf := s }
  else { b with buf := b.buf ++ " " ++ s }

/-- `Builder.P`: write a keyword phrase. -/
def P (b : Builder) (s : String) : Builder := b.pushTok s

/-- `Builder.Ident`: write a quoted identifier. -/
def ident (b : Builder) (s : String) : Builder :=
  b.pushTok (String.singleton b.quoteChar ++ s ++ String.singleton b.quoteChar)

/-- `Builder.Table`: write the table identifier. -/
def table (b : Builder) (t : Table) : Builder := b.ident t.name

/-- `Builder.Comma`: write a comma directly after the last token. -/
def comma (b : Builder) : Builder := { b with buf := b.buf ++ "," }

/-- `Builder.WriteString`: raw append. -/
def writeStr (b : Builder) (s : String) : Builder := { b with buf := b.buf ++ s }

/-- `Builder.Wrap`: write a parenthesized group produced by a sub-builder. -/
def wrap (b : Builder) (f : Builder → Builder) : Builder :=
  b.pushTok ("(" ++ (f { buf := "", quoteChar := b.quoteChar }).buf ++ ")")

/-- `Builder.MapComma`: write a comma-joined mapping over a sequence. -/
def mapComma {α : Type} (b : Builder) (xs : List α) (f : α → Builder → Builder) : Builder :=
  match xs with
  | [] => b
  | x :: rest => rest.foldl (fun acc y => f y acc.comma) (f x b)

end Builder

/-- `Build`: instantiate a builder with MySQL backquote quoting and write
the given phrase. -/
def Build (phrase : String) : Builder :=
  Builder.P { buf := "", quoteChar := '`' } phrase

/-- Modelled from the spec: Go `strings.ToLower` on one character
(ASCII, which is all the dialect tokens need). -/
def charToLower (c : Char) : Char :=
  if 'A' ≤ c ∧ c ≤ 'Z' then Char.ofNat (c.toNat + 32) else c

/-- Modelled from the spec: Go `strings.ToLower`. -/
def strToLower (s : String) : String := ⟨s.data.map charToLower⟩

/-- One character list starts with another. -/
def listStarts : List Char → List Char → Bool
  | [], _ => true
  | _ :: _, [] => false
  | p :: ps, c :: cs => p = c && listStarts ps cs

/-- Modelled from the spec: Go `strings.HasPrefix s pre`. -/
def strStarts (s pre : String) : Bool := listStarts pre.data s.data

/-- Modelled from the spec: Go `strings.HasSuffix s suf`. -/
def strEnds (s suf : String) : Bool := listStarts suf.data.reverse s.data.reverse

/-- Modelled from the spec: Go `s[:n]` on a string. -/
def strTake (s : String) (n : Nat) : String := ⟨s.data.take n⟩

/-- The single-quote character (code point 39). -/
def squote : Char := Char.ofNat 39

/-- Modelled from the spec: `sqlx.IsQuoted(s, '"', '\'')` — the value is
already wrapped in single or double quotes. -/
def isQuoted (s : String) : Bool :=
  match s.data.head?, s.data.getLast? with
  | some f, some b => (s.length ≥ 2) && ((f = '"' || f = squote) && b = f)
  | _, _ => false

/-- Modelled from the spec: Go's `strconv.Quote` — double-quote the string,
escaping embedded double quotes and backslashes (escapes of
non-printable characters, which no claim here exercises, are elided). -/
def strconvQuote (s : String) : String :=
  "\"" ++ String.join (s.toList.map fun c =>
    if c = '"' || c = '\\' then "\\" ++ String.singleton c else String.singleton c) ++ "\""

/-- `quote` (from the planner source): keep existing single/double quoting,
otherwise Go-quote the value. -/
def quote (s : String) : String :=
  if isQuoted s then s else strconvQuote s

/-- Modelled from the spec: `isHex` — a hexadecimal-looking literal
(longer than two characters and starting with `0x`, case-insensitively). -/
def isHex (v : String) : Bool :=
  v.length > 2 && strToLower (strTake v 2) = "0x"

/-- Modelled from the spec: the dialect's case-insensitive current-timestamp
token (`currentTS`). -/
def currentTS : String := "current_timestamp"

/-- First charset attribute value, if any (`sqlx.Has(attrs, &schema.Charset{})`). -/
def findCharset : List Attr → Option String
  | [] => none
  | .charset v :: _ => some v
  | _ :: rest => findCharset rest

/-- First collation attribute value, if any. -/
def findCollation : List Attr → Option String
  | [] => none
  | .collation v :: _ => some v
  | _ :: rest => findCollation rest

/-- `sqlx.Has(attrs, &AutoIncrement{})`: some auto-increment attribute is
present. -/
def hasAutoInc (attrs : List Attr) : Bool :=
  attrs.any fun a => match a with
    | .autoIncrement _ => true
    | _ => false

/-- `sqlx.Has(attrs, &Check{})`: some check attribute is present. -/
def hasCheckAttr (attrs : List Attr) : Bool :=
  attrs.any fun a => match a with
    | .check => true
    | _ => false

/-- `state.collation`: table collation from the table's attributes, else
from its schema's attributes, else the connection default. -/
def collation (conn : Conn) (t : Table) : String :=
  match findCollation t.attrs with
  | some v => v
  | none =>
    match t.schemaAttrs with
    | some sa =>
      match findCollation sa with
      | some v => v
      | none => conn.collate
    | none => conn.collate

/-- `state.attr`: write collation/comment element attributes. -/
def attr (b : Builder) (attrs : List Attr) : Builder :=
  attrs.foldl (fun b a =>
    match a with
    | .collation v => (b.P "COLLATE").P v
    | .comment text => (b.P "COMMENT").P (quote text)
    | _ => b) b

/-- `state.columnDefault`: write the column's default value, quoting per
the literal/raw-expression rules of the source. -/
def columnDefault (c : Column) (b : Builder) : Builder :=
  match c.default with
  | none => b
  | some (.literal v0) =>
    let v := if !hasNumericDefault c.ctype.typ && !isHex v0 then quote v0 else v0
    (b.P "DEFAULT").P v
  | some (.rawExpr x) =>
    let v :=
      if isHex x || hasNumericDefault c.ctype.typ
          || (strStarts x "(" && strEnds x ")") then x
      else if isTimeType c.ctype.typ && strStarts (strToLower x) currentTS then x
      else quote x
    (b.P "DEFAULT").P v

/-- One step of `state.column`'s attribute loop: renders one column
attribute and performs the documented table mutation for a non-zero
auto-increment start value. -/
def columnAttrStep (conn : Conn) (bt : Builder × Table) (a : Attr) : Builder × Table :=
  match a with
  | .collation v =>
    (if collation conn bt.2 ≠ v then (bt.1.P "COLLATE").P v else bt.1, bt.2)
  | .onUpdate x => ((bt.1.P "ON UPDATE").P x, bt.2)
  | .autoIncrement v =>
    (bt.1.P "AUTO_INCREMENT",
     if v ≠ 0 && !hasAutoInc bt.2.attrs then
       { bt.2 with attrs := bt.2.attrs ++ [Attr.autoIncrement v] }
     else bt.2)
  | a => (attr bt.1 [a], bt.2)

/-- `state.column`: render one column definition; returns the builder and
the (possibly auto-increment-extended) owning table. -/
def column (conn : Conn) (t : Table) (c : Column) (b : Builder) : Builder × Table :=
  let b := (b.ident c.name).P (mustFormat c.ctype.typ)
  let b := if !c.ctype.null then b.P "NOT" else b
  let b := b.P "NULL"
  let b := columnDefault c b
  let b :=
    if isJSONType c.ctype.typ && conn.mariadb && conn.ltV1043 && !hasCheckAttr c.attrs then
      (b.P "CHECK").wrap fun ib => ib.writeStr ("json_valid(`" ++ c.name ++ "`)")
    else b
  c.attrs.foldl (columnAttrStep conn) (b, t)

/-- `state.indexParts`: render the parenthesized, comma-separated index
parts (column identifier or raw expression, optional `DESC`). -/
def indexParts (b : Builder) (parts : List IndexPart) : Builder :=
  b.wrap fun ib => ib.mapComma parts fun p pb =>
    let pb :=
      match p.column with
      | some n => pb.ident n
      | none =>
        match p.expr with
        | some x => pb.writeStr x
        | none => pb
    p.attrs.foldl (fun pb2 a =>
      match a with
      | .collation v => if v = "D" then pb2.P "DESC" else pb2
      | _ => pb2) pb

/-- `state.fks`: render a comma-separated foreign-key constraint list. -/
def fks (b : Builder) (list : List ForeignKey) : Builder :=
  b.mapComma list fun fk fb =>
    let fb := if fk.symbol ≠ "" then (fb.P "CONSTRAINT").ident fk.symbol else fb
    let fb := fb.P "FOREIGN KEY"
    let fb := fb.wrap fun ib => ib.mapComma fk.columns fun n cb => cb.ident n
    let fb := (fb.P "REFERENCES").ident fk.refTable
    let fb := fb.wrap fun ib => ib.mapComma fk.refColumns fun n cb => cb.ident n
    let fb := if fk.onUpdate ≠ "" then (fb.P "ON UPDATE").P fk.onUpdate else fb
    if fk.onDelete ≠ "" then (fb.P "ON DELETE").P fk.onDelete else fb

/-- `state.tableAttr`: write table-level attributes, failing on an
auto-increment attribute with no value. -/
def tableAttr (b : Builder) (attrs : List Attr) : Except String Builder :=
  match attrs with
  | [] => .ok b
  | a :: rest =>
    match a with
    | .autoIncrement v =>
      if v = 0 then .error "missing value for table option AUTO_INCREMENT"
      else tableAttr ((b.P "AUTO_INCREMENT").P (toString v)) rest
    | .charset v => tableAttr ((b.P "CHARACTER SET").P v) rest
    | .collation v => tableAttr ((b.P "COLLATE").P v) rest
    | .comment text => tableAttr ((b.P "COMMENT").P (quote text)) rest
    | _ => tableAttr b rest

/-- The `CREATE DATABASE` change emitted for an `AddSchema` (reverse:
`DROP DATABASE`). -/
def addSchemaChange (s : SchemaObj) (extra : List Clause) : MChange :=
  let b := (Build "CREATE DATABASE").ident s.name
  let b := if extra.contains Clause.ifNotExists then b.P "IF NOT EXISTS" else b
  let b := match findCharset s.attrs with
    | some v => (b.P "CHARACTER SET").P v
    | none => b
  let b := match findCollation s.attrs with
    | some v => (b.P "COLLATE").P v
    | none => b
  { cmd := b.buf
    source := Change.addSchema s extra
    reverse := ((Build "DROP DATABASE").ident s.name).buf
    comment := "add new schema named \"" ++ s.name ++ "\"" }

/-- The (irreversible) `DROP DATABASE` change emitted for a `DropSchema`. -/
def dropSchemaChange (s : SchemaObj) (extra : List Clause) : MChange :=
  let b := (Build "DROP DATABASE").ident s.name
  let b := if extra.contains Clause.ifExists then b.P "IF EXISTS" else b
  { cmd := b.buf
    source := Change.dropSchema s extra
    reverse := ""
    comment := "drop schema named \"" ++ s.name ++ "\"" }

/-- `state.topLevel`: emit schema create/drop changes immediately and pass
every other change through for table-level planning.  Returns the emitted
migration changes and the remaining (planned) input changes, both in input
order. -/
def topLevel : List Change → List MChange × List Change
  | [] => ([], [])
  | ch :: rest =>
    match ch with
    | .addSchema s extra =>
      (addSchemaChange s extra :: (topLevel rest).1, (topLevel rest).2)
    | .dropSchema s extra =>
      (dropSchemaChange s extra :: (topLevel rest).1, (topLevel rest).2)
    | ch => ((topLevel rest).1, ch :: (topLevel rest).2)

/-- The column list of a `CREATE TABLE` body: comma-joined column
definitions, threading the owning table through each `column` call. -/
def columnsComma (conn : Conn) : List Column → Bool → Builder × Table → Builder × Table
  | [], _, bt => bt
  | c :: rest, first, (b, t) =>
    let b := if first then b else b.comma
    columnsComma conn rest false (column conn t c b)

/-- `state.addTable`: build the `CREATE TABLE` change (reverse:
`DROP TABLE`); fails if a table attribute cannot be rendered. -/
def addTable (conn : Conn) (t : Table) (extra : List Clause) :
    Except String (MChange × Table) :=
  let b := (Build "CREATE TABLE").table t
  let b := if extra.contains Clause.ifNotExists then b.P "IF NOT EXISTS" else b
  let (ib, t1) := columnsComma conn t.columns true ({ buf := "", quoteChar := '`' }, t)
  let ib :=
    match t.primaryKey with
    | some pk => attr (indexParts (ib.comma.P "PRIMARY KEY") pk.parts) pk.attrs
    | none => ib
  let ib := if t.indexes.isEmpty then ib else ib.comma
  let ib := ib.mapComma t.indexes fun idx xb =>
    let xb := if idx.unique then xb.P "UNIQUE" else xb
    attr (indexParts ((xb.P "INDEX").ident idx.name) idx.parts) idx.attrs
  let ib := if t.foreignKeys.isEmpty then ib else fks ib.comma t.foreignKeys
  let b := b.pushTok ("(" ++ ib.buf ++ ")")
  match tableAttr b t1.attrs with
  | .error e => .error e
  | .ok b =>
    .ok ({ cmd := b.buf
           source := Change.addTable t extra
           reverse := ((Build "DROP TABLE").table t).buf
           comment := "create \"" ++ t.name ++ "\" table" }, t1)

/-- `state.dropTable`: build the (irreversible) `DROP TABLE` change. -/
def dropTableChange (t : Table) (extra : List Clause) : MChange :=
  let b := (Build "DROP TABLE").table t
  let b := if extra.contains Clause.ifExists then b.P "IF EXISTS" else b
  { cmd := b.buf
    source := Change.dropTable t extra
    reverse := ""
    comment := "drop \"" ++ t.name ++ "\" table" }

/-- Column names dropped by the modification (the `dropC` map of
`skipAutoChanges`). -/
def droppedCols (cs : List Change) : List String :=
  cs.filterMap fun c =>
    match c with
    | .dropColumn col => some col.name
    | _ => none

/-- A change the `skipAutoChanges` loop removes: a `DropIndex` whose every
part is a column that is also dropped. -/
def autoSkipped (dropped : List String) : Change → Bool
  | .dropIndex i =>
    i.parts.all fun p =>
      match p.column with
      | some n => dropped.contains n
      | none => false
  | _ => false

/-- The Go `append(changes[:i], changes[i+1:]...)` performed on the shared
backing array: elements shift left from position `i`, positions at and
beyond the live length `li - 1` keep their stale values. -/
def removeShift (bk : List Change) (li i : Nat) : List Change :=
  bk.take i ++ (bk.drop (i + 1)).take (li - 1 - i) ++ bk.drop (li - 1)

/-- One iteration of the `skipAutoChanges` range loop at range index `i`:
the loop ranges over the slice header captured at loop entry (length
`bk.length`) while `changes` itself has live length `li`; removing an
element whose range index lies at or beyond the live length evaluates
`changes[i+1:]` with `i + 1 > len(changes)` — a Go slice-bounds panic,
modelled as an error. -/
def skipStep (dropped : List String) (st : Except String (List Change × Nat)) (i : Nat) :
    Except String (List Change × Nat) :=
  match st with
  | .error e => .error e
  | .ok (bk, li) =>
    match bk.get? i with
    | none => .ok (bk, li)
    | some c =>
      if autoSkipped dropped c then
        if i < li then .ok (removeShift bk li i, li - 1)
        else .error "runtime error: slice bounds out of range"
      else .ok (bk, li)

/-- `skipAutoChanges`: filter index drops made redundant by column drops,
with the source's in-place slice mutation during the range loop. -/
def skipAutoChanges (cs : List Change) : Except String (List Change) :=
  let dropped := droppedCols cs
  match (List.range cs.length).foldl (skipStep dropped) (.ok (cs, cs.length)) with
  | .error e => .error e
  | .ok (bk, li) => .ok (bk.take li)

/-- The auto-created supporting index dropped alongside a modified foreign
key whose reference changed: named after the old key's symbol. -/
def autoDropIdx (f : ForeignKey) : Change :=
  Change.dropIndex { name := f.symbol }

/-- The bits checked by `modifyTable` for a changed foreign-key
reference. -/
def refMask : Nat := changeRefTable ||| changeRefColumn

/-- The contribution of one table edit to the two ALTER buckets
(`changes[0]`/`changes[1]` of `modifyTable`). -/
def bucketsContrib (ch : Change) (b0 b1 : List Change) : List Change × List Change :=
  match ch with
  | .dropIndex i => (Change.dropIndex i :: b0, b1)
  | .modifyForeignKey src dst k =>
    (Change.dropForeignKey src :: (if kindIs k refMask then [autoDropIdx src] else []) ++ b0,
     Change.addForeignKey dst :: b1)
  | .modifyIndex src dst _ => (Change.dropIndex src :: b0, Change.addIndex dst :: b1)
  | ch => (b0, ch :: b1)

/-- A generic attribute drop, the unsupported edit kind of `modifyTable`. -/
def isDropAttrC : Change → Bool
  | .dropAttr _ => true
  | _ => false

/-- The bucket-assignment loop of `modifyTable`: removals that must happen
first go to bucket 0, everything else to bucket 1; a generic attribute
drop is an unsupported change. -/
def buckets : List Change → Except String (List Change × List Change)
  | [] => .ok ([], [])
  | ch :: rest =>
    if isDropAttrC ch then .error "unsupported change type: *schema.DropAttr"
    else
      match buckets rest with
      | .error e => .error e
      | .ok (b0, b1) => .ok (bucketsContrib ch b0 b1)

/-- The mutable state of the `alterTable` clause loop: forward builder,
reverse builder, current table, collected attribute errors, and the
batch-reversibility flag. -/
structure AlterSt where
  b : Builder
  rev : Builder
  t : Table
  errs : List String
  reversible : Bool

/-- One `alterTable` clause: render the forward clause, its reverse clause
when one exists, collect attribute-rendering errors, and clear the
reversibility flag on the irreversible clause kinds. -/
def alterClause (conn : Conn) (st : AlterSt) (ch : Change) : AlterSt :=
  match ch with
  | .addColumn c =>
    let (b, t) := column conn st.t c (st.b.P "ADD COLUMN")
    { st with b, t, rev := (st.rev.P "DROP COLUMN").ident c.name }
  | .modifyColumn src dst _ =>
    let (b, t) := column conn st.t dst (st.b.P "MODIFY COLUMN")
    let (rev, t) := column conn t src (st.rev.P "MODIFY COLUMN")
    { st with b, rev, t }
  | .dropColumn c =>
    { st with b := (st.b.P "DROP COLUMN").ident c.name, reversible := false }
  | .addIndex i =>
    let b := st.b.P "ADD"
    let b := if i.unique then b.P "UNIQUE" else b
    let b := attr (indexParts ((b.P "INDEX").ident i.name) i.parts) i.attrs
    { st with b, rev := (st.rev.P "DROP INDEX").ident i.name }
  | .dropIndex i =>
    { st with b := (st.b.P "DROP INDEX").ident i.name, reversible := false }
  | .addForeignKey f =>
    { st with
      b := fks (st.b.P "ADD") [f]
      rev := (st.rev.P "DROP FOREIGN KEY").ident f.symbol }
  | .dropForeignKey f =>
    { st with b := (st.b.P "DROP FOREIGN KEY").ident f.symbol, reversible := false }
  | .addAttr a =>
    (match tableAttr st.b [a] with
     | .ok b => { st with b, reversible := false }
     | .error e =>
       { st with errs := st.errs ++ ["add attribute: " ++ e], reversible := false })
  | .modifyAttr src dst =>
    let st :=
      match tableAttr st.b [dst] with
      | .ok b => { st with b }
      | .error e => { st with errs := st.errs ++ ["modify attribute: " ++ e] }
    (match tableAttr st.rev [src] with
     | .ok rev => { st with rev }
     | .error e => { st with errs := st.errs ++ ["reverse modify attribute: " ++ e] })
  | _ => st

/-- The `MapComma` loop of `alterTable`: a comma separates consecutive
clauses of the forward statement (the reverse builder receives none). -/
def alterFold (conn : Conn) : List Change → Bool → AlterSt → AlterSt
  | [], _, st => st
  | ch :: rest, first, st =>
    let st := if first then st else { st with b := st.b.comma }
    alterFold conn rest false (alterClause conn st ch)

/-- `state.alterTable`: build one multi-clause `ALTER TABLE` statement with
its reverse; fail with the joined attribute errors when any clause failed
to render, and discard the reverse when any clause was irreversible. -/
def alterTable (conn : Conn) (t : Table) (cs : List Change) :
    Except String (MChange × Table) :=
  let b0 := (Build "ALTER TABLE").table t
  let st := alterFold conn cs true { b := b0, rev := b0, t := t, errs := [], reversible := true }
  if st.errs ≠ [] then
    .error ("alter table: " ++ String.intercalate ", " st.errs)
  else
    .ok ({ cmd := st.b.buf
           source := Change.modifyTable t cs
           reverse := if st.reversible then st.rev.buf else ""
           comment := "modify \"" ++ t.name ++ "\" table" }, st.t)

/-- The per-bucket step of `modifyTable`: an empty bucket emits nothing,
a non-empty one emits one `ALTER TABLE` statement. -/
def alterStep (conn : Conn) (acct : List MChange × Table) (bucket : List Change) :
    Except String (List MChange × Table) :=
  if bucket.isEmpty then .ok acct
  else
    match alterTable conn acct.2 bucket with
    | .error e => .error e
    | .ok (mc, t') => .ok (acct.1 ++ [mc], t')

/-- `state.modifyTable`: elide redundant index drops, split the remaining
edits into the two ALTER buckets, and emit one statement per non-empty
bucket, bucket 0 first. -/
def modifyTable (conn : Conn) (t : Table) (cs : List Change) :
    Except String (List MChange × Table) :=
  match skipAutoChanges cs with
  | .error e => .error e
  | .ok l =>
    match buckets l with
    | .error e => .error e
    | .ok (b0, b1) =>
      match alterStep conn ([], t) b0 with
      | .error e => .error e
      | .ok acct => alterStep conn acct b1

/-- Modelled from the spec: `sqlx.DetachCycles` linearizes dependency
cycles among the table-level changes (splitting a cyclic change in two)
and fails on an unbreakable cycle.  The claims verified here do not
involve cyclic references, so it is modelled as the identity
linearization that finds no cycle. -/
def detachCycles (cs : List Change) : Except String (List Change) := .ok cs

/-- The Go `%T` type name of a change, for the unsupported-change error. -/
def changeTypeName : Change → String
  | .addSchema .. => "*schema.AddSchema"
  | .dropSchema .. => "*schema.DropSchema"
  | .addTable .. => "*schema.AddTable"
  | .dropTable .. => "*schema.DropTable"
  | .modifyTable .. => "*schema.ModifyTable"
  | .addColumn .. => "*schema.AddColumn"
  | .modifyColumn .. => "*schema.ModifyColumn"
  | .dropColumn .. => "*schema.DropColumn"
  | .addIndex .. => "*schema.AddIndex"
  | .modifyIndex .. => "*schema.ModifyIndex"
  | .dropIndex .. => "*schema.DropIndex"
  | .addForeignKey .. => "*schema.AddForeignKey"
  | .modifyForeignKey .. => "*schema.ModifyForeignKey"
  | .dropForeignKey .. => "*schema.DropForeignKey"
  | .addAttr .. => "*schema.AddAttr"
  | .modifyAttr .. => "*schema.ModifyAttr"
  | .dropAttr .. => "*schema.DropAttr"

/-- The planning loop of `state.plan` over the ordered table-level
changes, accumulating emitted migration changes. -/
def planLoop (conn : Conn) : List Change → List MChange → Except String (List MChange)
  | [], acc => .ok acc
  | ch :: rest, acc =>
    match ch with
    | .addTable t extra =>
      match addTable conn t extra with
      | .error e => .error e
      | .ok (mc, _) => planLoop conn rest (acc ++ [mc])
    | .dropTable t extra => planLoop conn rest (acc ++ [dropTableChange t extra])
    | .modifyTable t cs =>
      match modifyTable conn t cs with
      | .error e => .error e
      | .ok (mcs, _) => planLoop conn rest (acc ++ mcs)
    | ch => .error ("unsupported change " ++ changeTypeName ch)

/-- `state.plan`: schema-level changes first, then cycle linearization,
then the per-change planning loop. -/
def plan (conn : Conn) (cs : List Change) : Except String (List MChange) :=
  match detachCycles (topLevel cs).2 with
  | .error e => .error e
  | .ok planned => planLoop conn planned (topLevel cs).1

/-- The final reversibility recomputation of `PlanChanges`: start from
`true`, clear on any emitted change with an empty reverse. -/
def reversibleCalc (ms : List MChange) : Bool :=
  ms.foldl (fun r c => if c.reverse = "" then false else r) true

/-- `planApply.PlanChanges`: plan the changes and recompute the plan-level
reversibility flag from the emitted changes. -/
def PlanChanges (conn : Conn) (name : String) (cs : List Change) : Except String Plan :=
  match plan conn cs with
  | .error e => .error e
  | .ok ms =>
    .ok { name := name
          transactional := false
          reversible := reversibleCalc ms
          changes := ms }

/-! ## Spec-side predicates

Classifications stated in the specification's words, used to phrase the
claims about the embedded planner. -/

/-- A change carried as a `DropIndex`. -/
def isDropIndexC : Change → Bool
  | .dropIndex _ => true
  | _ => false

/-- A clause that bucket 0 may carry: an index drop or a foreign-key
drop. -/
def dropOnly : Change → Bool
  | .dropIndex _ => true
  | .dropForeignKey _ => true
  | _ => false

/-- The clause kinds the spec calls individually irreversible: dropping a
column, an index or a foreign key, and adding a table-level attribute. -/
def irrevClause : Change → Bool
  | .dropColumn _ => true
  | .dropIndex _ => true
  | .dropForeignKey _ => true
  | .addAttr _ => true
  | _ => false

/-- A table edit with no dedicated bucket rule: it stays in bucket 1. -/
def otherEdit : Change → Bool
  | .dropIndex _ => false
  | .modifyForeignKey .. => false
  | .modifyIndex .. => false
  | .dropAttr _ => false
  | _ => true

/-- The rendering error an attribute produces under `tableAttr`, if any:
only a valueless auto-increment attribute fails. -/
def attrErr : Attr → Option String
  | .autoIncrement v =>
    if v = 0 then some "missing value for table option AUTO_INCREMENT" else none
  | _ => none

/-- The attribute-rendering error messages one ALTER clause contributes,
in the order `alterTable` collects them. -/
def clauseErrs : Change → List String
  | .addAttr a =>
    match attrErr a with
    | some e => ["add attribute: " ++ e]
    | none => []
  | .modifyAttr src dst =>
    (match attrErr dst with
     | some e => ["modify attribute: " ++ e]
     | none => []) ++
    (match attrErr src with
     | some e => ["reverse modify attribute: " ++ e]
     | none => [])
  | _ => []

/-- All attribute-rendering errors of an ALTER batch, in collection
order. -/
def batchErrs (cs : List Change) : List String :=
  (cs.map clauseErrs).flatten

/-- A table-attribute edit (always assigned to bucket 1 and never elided
by `skipAutoChanges`). -/
def isAttrChange : Change → Bool
  | .addAttr _ => true
  | .modifyAttr .. => true
  | _ => false

/-- The top-level change kinds the planner supports. -/
def supportedTop : Change → Bool
  | .addSchema .. => true
  | .dropSchema .. => true
  | .addTable .. => true
  | .dropTable .. => true
  | .modifyTable .. => true
  | _ => false

/-- A table modification containing the unsupported `DropAttr` edit. -/
def hasDropAttrEdit : Change → Bool
  | .modifyTable _ cs => cs.any isDropAttrC
  | _ => false

/-- A schema-level create/drop, consumed by `topLevel`. -/
def isSchemaCh : Change → Bool
  | .addSchema .. => true
  | .dropSchema .. => true
  | _ => false

/-- The default-value formatting rules in the spec's priority order
(amended: the current-timestamp rule tests a case-insensitive token
prefix, as the source does). -/
def specDefaultText (ty : CType) : DefaultVal → String
  | .literal v =>
    if hasNumericDefault ty then v
    else if isHex v then v
    else quote v
  | .rawExpr v =>
    if hasNumericDefault ty then v
    else if isHex v then v
    else if strStarts v "(" && strEnds v ")" then v
    else if isTimeType ty && strStarts (strToLower v) currentTS then v
    else quote v

/-- The default-value formatting rules exactly as the claim words them:
the current-timestamp rule fires only when the raw expression *is* the
dialect token (case-insensitively), not merely starts with it. -/
def specClaimedDefaultText (ty : CType) : DefaultVal → String
  | .literal v =>
    if hasNumericDefault ty then v
    else if isHex v then v
    else quote v
  | .rawExpr v =>
    if hasNumericDefault ty then v
    else if isHex v then v
    else if strStarts v "(" && strEnds v ")" then v
    else if isTimeType ty && strToLower v = currentTS then v
    else quote v

/-! ## Builder lemmas

Every builder operation only appends to the buffer; `BExt b b'` records
that `b'`'s buffer extends `b`'s. -/

/-- `b'`'s buffer is `b`'s buffer followed by some suffix. -/
def BExt (b b' : Builder) : Prop := ∃ s, b'.buf = b.buf ++ s

theorem bext_refl (b : Builder) : BExt b b :=
  ⟨"", (String.append_empty _).symm⟩

theorem bext_trans {a b c : Builder} (h1 : BExt a b) (h2 : BExt b c) : BExt a c := by
  obtain ⟨s, hs⟩ := h1
  obtain ⟨u, hu⟩ := h2
  exact ⟨s ++ u, by rw [hu, hs, String.append_assoc]⟩

theorem bext_pushTok (b : Builder) (s : String) : BExt b (b.pushTok s) := by
  unfold Builder.pushTok
  split
  · exact bext_refl b
  · split
    · next h _ => exact ⟨s, by simp [*]⟩
    · exact ⟨" " ++ s, by simp [String.append_assoc]⟩

theorem bext_P (b : Builder) (s : String) : BExt b (b.P s) := bext_pushTok b s

theorem bext_ident (b : Builder) (s : String) : BExt b (b.ident s) := bext_pushTok b _

theorem bext_table (b : Builder) (t : Table) : BExt b (b.table t) := bext_pushTok b _

theorem bext_comma (b : Builder) : BExt b b.comma := ⟨",", rfl⟩

theorem bext_writeStr (b : Builder) (s : String) : BExt b (b.writeStr s) := ⟨s, rfl⟩

theorem bext_wrap (b : Builder) (f : Builder → Builder) : BExt b (b.wrap f) :=
  bext_pushTok b _

theorem bext_foldl {α : Type} (f : Builder → α → Builder)
    (h : ∀ b a, BExt b (f b a)) : ∀ (xs : List α) (b : Builder), BExt b (xs.foldl f b)
  | [], b => bext_refl b
  | x :: rest, b => bext_trans (h b x) (bext_foldl f h rest (f b x))

theorem bext_mapComma {α : Type} (xs : List α) (f : α → Builder → Builder)
    (h : ∀ a b, BExt b (f a b)) (b : Builder) : BExt b (b.mapComma xs f) := by
  unfold Builder.mapComma
  match xs with
  | [] => exact bext_refl b
  | x :: rest =>
    exact bext_trans (h x b)
      (bext_foldl (fun acc y => f y acc.comma)
        (fun b' y => bext_trans (bext_comma b') (h y b'.comma)) rest (f x b))

theorem bext_attr (b : Builder) (attrs : List Attr) : BExt b (attr b attrs) := by
  refine bext_foldl _ (fun b a => ?_) attrs b
  match a with
  | .collation v => exact bext_trans (bext_P b "COLLATE") (bext_P _ v)
  | .comment text => exact bext_trans (bext_P b "COMMENT") (bext_P _ _)
  | .charset v => exact bext_refl b
  | .autoIncrement v => exact bext_refl b
  | .onUpdate a => exact bext_refl b
  | .check => exact bext_refl b

theorem bext_columnDefault (c : Column) (b : Builder) : BExt b (columnDefault c b) := by
  unfold columnDefault
  match c.default with
  | none => exact bext_refl b
  | some (.literal v0) => exact bext_trans (bext_P b "DEFAULT") (bext_P _ _)
  | some (.rawExpr x) => exact bext_trans (bext_P b "DEFAULT") (bext_P _ _)

theorem bext_columnAttrStep (conn : Conn) (bt : Builder × Table) (a : Attr) :
    BExt bt.1 (columnAttrStep conn bt a).1 := by
  unfold columnAttrStep
  match a with
  | .collation v =>
    simp only
    split
    · exact bext_trans (bext_P bt.1 "COLLATE") (bext_P _ v)
    · exact bext_refl bt.1
  | .onUpdate x => exact bext_trans (bext_P bt.1 "ON UPDATE") (bext_P _ x)
  | .autoIncrement v => exact bext_P bt.1 "AUTO_INCREMENT"
  | .charset v => exact bext_attr bt.1 _
  | .comment text => exact bext_attr bt.1 _
  | .check => exact bext_attr bt.1 _

theorem bext_foldl_pair {α σ : Type} (f : Builder × σ → α → Builder × σ)
    (h : ∀ bs a, BExt bs.1 (f bs a).1) :
    ∀ (xs : List α) (bs : Builder × σ), BExt bs.1 (xs.foldl f bs).1
  | [], _ => bext_refl _
  | x :: rest, bs => bext_trans (h bs x) (bext_foldl_pair f h rest (f bs x))

theorem bext_column (conn : Conn) (t : Table) (c : Column) (b : Builder) :
    BExt b (column conn t c b).1 := by
  unfold column
  refine bext_trans ?_ (bext_foldl_pair (columnAttrStep conn) (bext_columnAttrStep conn) c.attrs _)
  have hnot : ∀ b' : Builder, BExt b' (if (!c.ctype.null) = true then b'.P "NOT" else b') := by
    intro b'; split
    · exact bext_P _ _
    · exact bext_refl _
  have hcheck : ∀ b' : Builder,
      BExt b' (if (isJSONType c.ctype.typ && conn.mariadb && conn.ltV1043
          && !hasCheckAttr c.attrs) = true then
        (b'.P "CHECK").wrap fun ib => ib.writeStr ("json_valid(`" ++ c.name ++ "`)")
      else b') := by
    intro b'; split
    · exact bext_trans (bext_P _ "CHECK") (bext_wrap _ _)
    · exact bext_refl _
  exact bext_trans
    (bext_trans
      (bext_trans
        (bext_trans (bext_trans (bext_ident b c.name) (bext_P _ (mustFormat c.ctype.typ)))
          (hnot _))
        (bext_P _ "NULL"))
      (bext_columnDefault c _))
    (hcheck _)

theorem bext_indexParts (b : Builder) (parts : List IndexPart) :
    BExt b (indexParts b parts) := bext_wrap b _

theorem bext_fks (b : Builder) (list : List ForeignKey) : BExt b (fks b list) := by
  refine bext_mapComma list _ (fun fk fb => ?_) b
  have hsym : ∀ b' : Builder,
      BExt b' (if fk.symbol ≠ "" then (b'.P "CONSTRAINT").ident fk.symbol else b') := by
    intro b'; split
    · exact bext_trans (bext_P _ "CONSTRAINT") (bext_ident _ _)
    · exact bext_refl _
  have hupd : ∀ b' : Builder,
      BExt b' (if fk.onUpdate ≠ "" then (b'.P "ON UPDATE").P fk.onUpdate else b') := by
    intro b'; split
    · exact bext_trans (bext_P _ "ON UPDATE") (bext_P _ _)
    · exact bext_refl _
  have hdel : ∀ b' : Builder,
      BExt b' (if fk.onDelete ≠ "" then (b'.P "ON DELETE").P fk.onDelete else b') := by
    intro b'; split
    · exact bext_trans (bext_P _ "ON DELETE") (bext_P _ _)
    · exact bext_refl _
  exact bext_trans
    (bext_trans
      (bext_trans
        (bext_trans
          (bext_trans (bext_trans (hsym fb) (bext_P _ "FOREIGN KEY")) (bext_wrap _ _))
          (bext_trans (bext_P _ "REFERENCES") (bext_ident _ _)))
        (bext_wrap _ _))
      (hupd _))
    (hdel _)

theorem bext_tableAttr {b b' : Builder} {attrs : List Attr}
    (h : tableAttr b attrs = .ok b') : BExt b b' := by
  induction attrs generalizing b with
  | nil => unfold tableAttr at h; cases h; exact bext_refl b'
  | cons a rest ih =>
    unfold tableAttr at h
    match a with
    | .autoIncrement v =>
      simp only at h
      split at h
      · cases h
      · exact bext_trans (bext_trans (bext_P b "AUTO_INCREMENT") (bext_P _ _)) (ih h)
    | .charset v => exact bext_trans (bext_trans (bext_P b "CHARACTER SET") (bext_P _ v)) (ih h)
    | .collation v => exact bext_trans (bext_trans (bext_P b "COLLATE") (bext_P _ v)) (ih h)
    | .comment text => exact bext_trans (bext_trans (bext_P b "COMMENT") (bext_P _ _)) (ih h)
    | .onUpdate x => exact ih h
    | .check => exact ih h

/-- A string with a nonempty left part is nonempty. -/
theorem string_append_ne_left {a b : String} (h : a ≠ "") : a ++ b ≠ "" := by
  intro hc
  apply h
  have hd : a.data ++ b.data = [] := by
    have := congrArg String.data hc
    rwa [String.data_append] at this
  exact String.ext (List.append_eq_nil.mp hd).1

/-- A nonempty buffer stays nonempty under extension. -/
theorem bext_ne_empty {b b' : Builder} (h : BExt b b') (hb : b.buf ≠ "") : b'.buf ≠ "" := by
  obtain ⟨s, hs⟩ := h
  rw [hs]
  exact string_append_ne_left hb

theorem pushTok_ne_empty {b : Builder} (hb : b.buf ≠ "") (s : String) :
    (b.pushTok s).buf ≠ "" := bext_ne_empty (bext_pushTok b s) hb

/-- The shared `ALTER TABLE` statement head is nonempty. -/
theorem alterHead_ne_empty (t : Table) : ((Build "ALTER TABLE").table t).buf ≠ "" := by
  refine pushTok_ne_empty ?_ _
  decide

/-! ## `alterTable` clause-loop lemmas -/

theorem tableAttr_single_err {b : Builder} {a : Attr} {e : String}
    (h : attrErr a = some e) : tableAttr b [a] = .error e := by
  cases a <;> simp only [attrErr] at h
  case autoIncrement v =>
    split at h
    · cases h
      next hv =>
        simp only [tableAttr]
        rw [if_pos hv]
    · cases h
  all_goals cases h

theorem tableAttr_single_ok {a : Attr} (h : attrErr a = none) (b : Builder) :
    ∃ b', tableAttr b [a] = .ok b' := by
  cases a
  case autoIncrement v =>
    simp only [attrErr] at h
    split at h
    · cases h
    · next hv =>
      refine ⟨(b.P "AUTO_INCREMENT").P (toString v), ?_⟩
      simp only [tableAttr]
      rw [if_neg hv]
  all_goals exact ⟨_, rfl⟩

theorem alterClause_errs (conn : Conn) (st : AlterSt) (ch : Change) :
    (alterClause conn st ch).errs = st.errs ++ clauseErrs ch := by
  cases ch <;> simp only [alterClause, clauseErrs, List.append_nil]
  case addAttr a =>
    cases hae : attrErr a with
    | none =>
      obtain ⟨b', hb'⟩ := tableAttr_single_ok hae st.b
      simp [hb']
    | some e => simp [tableAttr_single_err hae]
  case modifyAttr src dst =>
    cases hdst : attrErr dst with
    | none =>
      obtain ⟨bd, hbd⟩ := tableAttr_single_ok hdst st.b
      cases hsrc : attrErr src with
      | none =>
        obtain ⟨bs, hbs⟩ := tableAttr_single_ok hsrc st.rev
        simp [hbd, hbs]
      | some e => simp [hbd, tableAttr_single_err hsrc]
    | some e =>
      simp only [tableAttr_single_err hdst]
      cases hsrc : attrErr src with
      | none =>
        obtain ⟨bs, hbs⟩ := tableAttr_single_ok hsrc st.rev
        simp [hbs, List.append_assoc]
      | some e2 => simp [tableAttr_single_err hsrc, List.append_assoc]

theorem alterClause_reversible (conn : Conn) (st : AlterSt) (ch : Change) :
    (alterClause conn st ch).reversible = (st.reversible && !irrevClause ch) := by
  cases ch <;> simp only [alterClause, irrevClause, Bool.not_true, Bool.not_false,
    Bool.and_false, Bool.and_true]
  case addAttr a => split <;> rfl
  case modifyAttr src dst =>
    cases hd : tableAttr st.b [dst] <;> simp only [hd] <;> split <;> rfl

theorem alterClause_b_bext (conn : Conn) (st : AlterSt) (ch : Change) :
    BExt st.b (alterClause conn st ch).b := by
  cases ch <;> simp only [alterClause]
  case addColumn c => exact bext_trans (bext_P _ "ADD COLUMN") (bext_column ..)
  case modifyColumn src dst k => exact bext_trans (bext_P _ "MODIFY COLUMN") (bext_column ..)
  case dropColumn c => exact bext_trans (bext_P _ "DROP COLUMN") (bext_ident _ _)
  case addIndex i =>
    refine bext_trans ?_ (bext_attr _ _)
    refine bext_trans ?_ (bext_indexParts _ _)
    refine bext_trans ?_ (bext_ident _ _)
    refine bext_trans ?_ (bext_P _ "INDEX")
    have : ∀ b' : Builder, BExt b' (if i.unique = true then b'.P "UNIQUE" else b') := by
      intro b'; split
      · exact bext_P _ _
      · exact bext_refl _
    exact bext_trans (bext_P _ "ADD") (this _)
  case dropIndex i => exact bext_trans (bext_P _ "DROP INDEX") (bext_ident _ _)
  case addForeignKey f => exact bext_trans (bext_P _ "ADD") (bext_fks _ _)
  case dropForeignKey f => exact bext_trans (bext_P _ "DROP FOREIGN KEY") (bext_ident _ _)
  case addAttr a =>
    split
    · next b' hb' => exact bext_tableAttr hb'
    · exact bext_refl _
  case modifyAttr src dst =>
    cases hd : tableAttr st.b [dst] with
    | error e => simp only [hd]; split <;> exact bext_refl _
    | ok b' => simp only [hd]; split <;> exact bext_tableAttr hd
  all_goals exact bext_refl _

theorem alterClause_rev_bext (conn : Conn) (st : AlterSt) (ch : Change) :
    BExt st.rev (alterClause conn st ch).rev := by
  cases ch <;> simp only [alterClause]
  case addColumn c => exact bext_trans (bext_P _ "DROP COLUMN") (bext_ident _ _)
  case modifyColumn src dst k => exact bext_trans (bext_P _ "MODIFY COLUMN") (bext_column ..)
  case addIndex i => exact bext_trans (bext_P _ "DROP INDEX") (bext_ident _ _)
  case addForeignKey f => exact bext_trans (bext_P _ "DROP FOREIGN KEY") (bext_ident _ _)
  case addAttr a => split <;> exact bext_refl _
  case modifyAttr src dst =>
    cases hd : tableAttr st.b [dst] <;> simp only [hd] <;> split
    · next rev' hrev' => exact bext_tableAttr hrev'
    · exact bext_refl _
    · next rev' hrev' => exact bext_tableAttr hrev'
    · exact bext_refl _
  all_goals exact bext_refl _

theorem alterClause_t_dropOnly (conn : Conn) (st : AlterSt) (ch : Change)
    (h : dropOnly ch = true) : (alterClause conn st ch).t = st.t := by
  cases ch <;> simp only [dropOnly] at h <;> simp only [alterClause]
  all_goals first
    | rfl
    | (split <;> rfl)
    | cases h

theorem alterFold_errs (conn : Conn) :
    ∀ (cs : List Change) (fst : Bool) (st : AlterSt),
      (alterFold conn cs fst st).errs = st.errs ++ batchErrs cs
  | [], _, st => by simp [alterFold, batchErrs]
  | ch :: rest, fst, st => by
    have hcomma : (if fst then st else { st with b := st.b.comma }).errs = st.errs := by
      split <;> rfl
    simp only [alterFold, alterFold_errs conn rest false, alterClause_errs, hcomma,
      batchErrs, List.map_cons, List.flatten_cons, List.append_assoc]

theorem alterFold_reversible (conn : Conn) :
    ∀ (cs : List Change) (fst : Bool) (st : AlterSt),
      (alterFold conn cs fst st).reversible
        = (st.reversible && cs.all fun c => !irrevClause c)
  | [], _, st => by simp [alterFold]
  | ch :: rest, fst, st => by
    have hcomma : (if fst then st else { st with b := st.b.comma }).reversible
        = st.reversible := by split <;> rfl
    simp only [alterFold, alterFold_reversible conn rest false, alterClause_reversible,
      hcomma, List.all_cons, Bool.and_assoc]

theorem alterFold_b_bext (conn : Conn) :
    ∀ (cs : List Change) (fst : Bool) (st : AlterSt),
      BExt st.b (alterFold conn cs fst st).b
  | [], _, st => bext_refl _
  | ch :: rest, fst, st => by
    have hcomma : BExt st.b (if fst then st else { st with b := st.b.comma }).b := by
      split
      · exact bext_refl _
      · exact bext_comma _
    exact bext_trans (bext_trans hcomma (alterClause_b_bext ..))
      (alterFold_b_bext conn rest false _)

theorem alterFold_rev_bext (conn : Conn) :
    ∀ (cs : List Change) (fst : Bool) (st : AlterSt),
      BExt st.rev (alterFold conn cs fst st).rev
  | [], _, st => bext_refl _
  | ch :: rest, fst, st => by
    have hcomma : (if fst then st else { st with b := st.b.comma }).rev = st.rev := by
      split <;> rfl
    refine bext_trans ?_ (alterFold_rev_bext conn rest false _)
    have h2 := alterClause_rev_bext conn (if fst then st else { st with b := st.b.comma }) ch
    rw [hcomma] at h2
    exact h2

theorem alterFold_t_drops (conn : Conn) :
    ∀ (cs : List Change) (fst : Bool) (st : AlterSt),
      (∀ ch ∈ cs, dropOnly ch = true) → (alterFold conn cs fst st).t = st.t
  | [], _, st, _ => rfl
  | ch :: rest, fst, st, h => by
    have hcomma : (if fst then st else { st with b := st.b.comma }).t = st.t := by
      split <;> rfl
    rw [alterFold, alterFold_t_drops conn rest false _ fun c hc => h c (List.mem_cons_of_mem _ hc),
      alterClause_t_dropOnly _ _ _ (h ch (List.mem_cons_self _ _)), hcomma]

/-- The rendered `ALTER TABLE` statement head. -/
theorem alterHead_buf (t : Table) :
    ((Build "ALTER TABLE").table t).buf = "ALTER TABLE `" ++ t.name ++ "`" := by
  show (((Build "ALTER TABLE").pushTok
    (String.singleton '`' ++ t.name ++ String.singleton '`'))).buf = _
  have htok : String.singleton '`' ++ t.name ++ String.singleton '`' ≠ "" :=
    string_append_ne_left (string_append_ne_left (by decide))
  unfold Builder.pushTok
  rw [if_neg htok]
  have hbuf : (Build "ALTER TABLE").buf = "ALTER TABLE" := rfl
  rw [hbuf]
  rw [if_neg (by decide : ¬("ALTER TABLE" : String) = "")]
  show "ALTER TABLE" ++ " " ++ (("`" ++ t.name) ++ "`") = ("ALTER TABLE `" ++ t.name) ++ "`"
  rw [show ("ALTER TABLE" : String) ++ " " = "ALTER TABLE " from rfl,
    ← String.append_assoc, ← String.append_assoc,
    show ("ALTER TABLE " : String) ++ "`" = "ALTER TABLE `" from rfl]

/-- When any clause of the batch fails to render its attribute, `alterTable`
emits nothing and fails with all collected errors joined. -/
theorem alterTable_error_of_errs (conn : Conn) (t : Table) (cs : List Change)
    (h : batchErrs cs ≠ []) :
    alterTable conn t cs
      = .error ("alter table: " ++ String.intercalate ", " (batchErrs cs)) := by
  unfold alterTable
  have herrs := alterFold_errs conn cs true
    { b := (Build "ALTER TABLE").table t, rev := (Build "ALTER TABLE").table t,
      t := t, errs := [], reversible := true }
  simp only [List.nil_append] at herrs
  rw [if_pos (by rw [herrs]; exact h), herrs]

/-- The shape of a successful `alterTable` batch: the statement source is
the modification with exactly this clause list, the command is an
`ALTER TABLE` on the table, the reverse is nonempty exactly when no clause
was irreversible, and a drops-only batch leaves the table untouched. -/
theorem alterTable_ok_inv {conn : Conn} {t : Table} {cs : List Change} {mc : MChange}
    {t2 : Table} (h : alterTable conn t cs = .ok (mc, t2)) :
    mc.source = Change.modifyTable t cs ∧
    (∃ r, mc.cmd = "ALTER TABLE `" ++ t.name ++ "`" ++ r) ∧
    (mc.reverse ≠ "" ↔ ∀ ch ∈ cs, irrevClause ch = false) ∧
    ((∀ ch ∈ cs, dropOnly ch = true) → t2 = t) := by
  unfold alterTable at h
  dsimp only at h
  set st0 : AlterSt :=
    { b := (Build "ALTER TABLE").table t, rev := (Build "ALTER TABLE").table t,
      t := t, errs := [], reversible := true } with hst0
  split at h
  · cases h
  · rw [Except.ok.injEq, Prod.mk.injEq] at h
    obtain ⟨hmc, ht2⟩ := h
    refine ⟨by rw [← hmc], ?_, ?_, ?_⟩
    · obtain ⟨r, hr⟩ := alterFold_b_bext conn cs true st0
      refine ⟨r, ?_⟩
      rw [← hmc]
      show (alterFold conn cs true st0).b.buf = _
      rw [hr]
      show ((Build "ALTER TABLE").table t).buf ++ r = _
      rw [alterHead_buf]
    · rw [← hmc]
      simp only
      have hrev := alterFold_reversible conn cs true st0
      simp only [Bool.true_and] at hrev
      constructor
      · intro hne ch hch
        by_contra hirr
        rw [Bool.not_eq_false] at hirr
        have : (cs.all fun c => !irrevClause c) = false := by
          rw [List.all_eq_false]
          exact ⟨ch, hch, by simp [hirr]⟩
        rw [hrev, this] at hne
        simp at hne
      · intro hall
        have : (cs.all fun c => !irrevClause c) = true := by
          rw [List.all_eq_true]
          intro ch hch
          simp [hall ch hch]
        rw [hrev, this]
        simp only [if_true]
        exact bext_ne_empty (alterFold_rev_bext conn cs true st0) (alterHead_ne_empty t)
    · intro hdrops
      rw [← ht2, alterFold_t_drops conn cs true st0 hdrops]

/-! ## Bucket-assignment lemmas -/

theorem buckets_ok_cons {ch : Change} {rest b0 b1 : List Change}
    (h : buckets (ch :: rest) = .ok (b0, b1)) :
    ∃ r0 r1, buckets rest = .ok (r0, r1) ∧ isDropAttrC ch = false ∧
      (b0, b1) = bucketsContrib ch r0 r1 := by
  unfold buckets at h
  split at h
  · cases h
  · next hda =>
    split at h
    · cases h
    · next r0 r1 hr =>
      rw [Except.ok.injEq] at h
      exact ⟨r0, r1, hr, Bool.not_eq_true _ ▸ hda, h.symm⟩

theorem bucketsContrib_b0_pre (ch : Change) (r0 r1 : List Change) :
    ∃ pre, (bucketsContrib ch r0 r1).1 = pre ++ r0 := by
  cases ch <;> simp only [bucketsContrib]
  case dropIndex i => exact ⟨[Change.dropIndex i], rfl⟩
  case modifyForeignKey src dst k =>
    exact ⟨Change.dropForeignKey src :: (if kindIs k refMask then [autoDropIdx src] else []),
      by simp⟩
  case modifyIndex src dst k => exact ⟨[Change.dropIndex src], rfl⟩
  all_goals exact ⟨[], rfl⟩

theorem bucketsContrib_b1_pre (ch : Change) (r0 r1 : List Change) :
    ∃ pre, (bucketsContrib ch r0 r1).2 = pre ++ r1 := by
  cases ch <;> simp only [bucketsContrib]
  case modifyForeignKey src dst k => exact ⟨[Change.addForeignKey dst], rfl⟩
  case modifyIndex src dst k => exact ⟨[Change.addIndex dst], rfl⟩
  case dropIndex i => exact ⟨[], rfl⟩
  all_goals exact ⟨[_], rfl⟩

theorem buckets_mem_dropIndex :
    ∀ {l b0 b1 : List Change} {i : Index}, buckets l = .ok (b0, b1) →
      Change.dropIndex i ∈ l → Change.dropIndex i ∈ b0 := by
  intro l
  induction l with
  | nil => intro b0 b1 i _ hm; cases hm
  | cons ch rest ih =>
    intro b0 b1 i h hm
    obtain ⟨r0, r1, hr, -, hco⟩ := buckets_ok_cons h
    rw [Prod.mk.injEq] at hco
    rcases List.mem_cons.mp hm with hc | hc
    · subst hc
      rw [hco.1]
      simp [bucketsContrib]
    · have := ih hr hc
      obtain ⟨pre, hpre⟩ := bucketsContrib_b0_pre ch r0 r1
      rw [hco.1, hpre]
      exact List.mem_append_right pre this

theorem buckets_mem_mfk :
    ∀ {l b0 b1 : List Change} {src dst : ForeignKey} {k : Nat},
      buckets l = .ok (b0, b1) → Change.modifyForeignKey src dst k ∈ l →
      Change.dropForeignKey src ∈ b0 ∧ Change.addForeignKey dst ∈ b1 ∧
        (kindIs k refMask = true → autoDropIdx src ∈ b0) := by
  intro l
  induction l with
  | nil => intro b0 b1 src dst k _ hm; cases hm
  | cons ch rest ih =>
    intro b0 b1 src dst k h hm
    obtain ⟨r0, r1, hr, -, hco⟩ := buckets_ok_cons h
    rw [Prod.mk.injEq] at hco
    rcases List.mem_cons.mp hm with hc | hc
    · subst hc
      rw [hco.1, hco.2]
      simp only [bucketsContrib]
      refine ⟨List.mem_cons_self _ _, List.mem_cons_self _ _, fun hk => ?_⟩
      rw [hk]
      simp
    · obtain ⟨h1, h2, h3⟩ := ih hr hc
      obtain ⟨p0, hp0⟩ := bucketsContrib_b0_pre ch r0 r1
      obtain ⟨p1, hp1⟩ := bucketsContrib_b1_pre ch r0 r1
      rw [hco.1, hco.2, hp0, hp1]
      exact ⟨List.mem_append_right p0 h1, List.mem_append_right p1 h2,
        fun hk => List.mem_append_right p0 (h3 hk)⟩

theorem buckets_mem_mix :
    ∀ {l b0 b1 : List Change} {src dst : Index} {k : Nat},
      buckets l = .ok (b0, b1) → Change.modifyIndex src dst k ∈ l →
      Change.dropIndex src ∈ b0 ∧ Change.addIndex dst ∈ b1 := by
  intro l
  induction l with
  | nil => intro b0 b1 src dst k _ hm; cases hm
  | cons ch rest ih =>
    intro b0 b1 src dst k h hm
    obtain ⟨r0, r1, hr, -, hco⟩ := buckets_ok_cons h
    rw [Prod.mk.injEq] at hco
    rcases List.mem_cons.mp hm with hc | hc
    · subst hc
      rw [hco.1, hco.2]
      exact ⟨List.mem_cons_self _ _, List.mem_cons_self _ _⟩
    · obtain ⟨h1, h2⟩ := ih hr hc
      obtain ⟨p0, hp0⟩ := bucketsContrib_b0_pre ch r0 r1
      obtain ⟨p1, hp1⟩ := bucketsContrib_b1_pre ch r0 r1
      rw [hco.1, hco.2, hp0, hp1]
      exact ⟨List.mem_append_right p0 h1, List.mem_append_right p1 h2⟩

theorem buckets_mem_other :
    ∀ {l b0 b1 : List Change} {ch : Change}, buckets l = .ok (b0, b1) →
      ch ∈ l → otherEdit ch = true → ch ∈ b1 := by
  intro l
  induction l with
  | nil => intro b0 b1 ch _ hm; cases hm
  | cons hd rest ih =>
    intro b0 b1 ch h hm hoth
    obtain ⟨r0, r1, hr, -, hco⟩ := buckets_ok_cons h
    rw [Prod.mk.injEq] at hco
    rcases List.mem_cons.mp hm with hc | hc
    · subst hc
      rw [hco.2]
      cases ch <;> simp_all [otherEdit, bucketsContrib]
    · have := ih hr hc hoth
      obtain ⟨p1, hp1⟩ := bucketsContrib_b1_pre hd r0 r1
      rw [hco.2, hp1]
      exact List.mem_append_right p1 this

theorem buckets_b0_dropOnly :
    ∀ {l b0 b1 : List Change}, buckets l = .ok (b0, b1) →
      ∀ ch ∈ b0, dropOnly ch = true := by
  intro l
  induction l with
  | nil =>
    intro b0 b1 h ch hm
    unfold buckets at h
    cases h
    cases hm
  | cons hd rest ih =>
    intro b0 b1 h ch hm
    obtain ⟨r0, r1, hr, -, hco⟩ := buckets_ok_cons h
    rw [Prod.mk.injEq] at hco
    rw [hco.1] at hm
    cases hd <;> simp only [bucketsContrib] at hm
    case dropIndex i =>
      rcases List.mem_cons.mp hm with hc | hc
      · subst hc; rfl
      · exact ih hr ch hc
    case modifyForeignKey src dst k =>
      rcases List.mem_cons.mp hm with hc | hc
      · subst hc; rfl
      · rcases List.mem_append.mp hc with hc2 | hc2
        · split at hc2
          · rcases List.mem_singleton.mp hc2 with rfl; rfl
          · cases hc2
        · exact ih hr ch hc2
    case modifyIndex src dst k =>
      rcases List.mem_cons.mp hm with hc | hc
      · subst hc; rfl
      · exact ih hr ch hc
    all_goals exact ih hr ch hm

theorem buckets_error_of_dropAttr :
    ∀ {l : List Change} {a : Attr}, Change.dropAttr a ∈ l →
      ∃ e, buckets l = .error e := by
  intro l
  induction l with
  | nil => intro a hm; cases hm
  | cons hd rest ih =>
    intro a hm
    rcases List.mem_cons.mp hm with hc | hc
    · subst hc
      exact ⟨_, by unfold buckets; rw [if_pos (by rfl : isDropAttrC (Change.dropAttr a) = true)]⟩
    · obtain ⟨e, he⟩ := ih hc
      unfold buckets
      split
      · exact ⟨_, rfl⟩
      · rw [he]
        exact ⟨e, rfl⟩

/-! ## `skipAutoChanges` slice-loop lemmas -/

theorem foldl_inv {α β : Type} (Inv : β → Prop) (step : β → α → β)
    (h : ∀ st a, Inv st → Inv (step st a)) :
    ∀ (xs : List α) (init : β), Inv init → Inv (xs.foldl step init)
  | [], _, hi => hi
  | x :: rest, init, hi => foldl_inv Inv step h rest (step init x) (h init x hi)

theorem autoSkipped_isDropIndex {d : List String} {c : Change}
    (h : autoSkipped d c = true) : isDropIndexC c = true := by
  cases c <;> simp_all [autoSkipped, isDropIndexC]

/-- Decomposition of the live prefix of the backing array at a valid
index. -/
theorem take_live_decomp {bk : List Change} {i li : Nat} {c : Change}
    (hget : bk.get? i = some c) (h1 : i < li) (h2 : li ≤ bk.length) :
    bk.take li = bk.take i ++ c :: (bk.drop (i + 1)).take (li - 1 - i) := by
  have hi : i < bk.length := Nat.lt_of_lt_of_le h1 h2
  have hc : bk[i] = c := by
    obtain ⟨hlt, hg⟩ := List.get?_eq_some.mp hget
    simpa [List.get_eq_getElem] using hg
  have hsplit : li = i + (li - i) := by omega
  have h3 := List.take_add bk i (li - i)
  rw [← hsplit] at h3
  rw [h3]
  congr 1
  rw [List.drop_eq_getElem_cons hi, hc]
  have h4 : li - i = (li - 1 - i) + 1 := by omega
  rw [h4, List.take_succ_cons]

theorem removeShift_take {bk : List Change} {li i : Nat} (h1 : i < li)
    (h2 : li ≤ bk.length) :
    (removeShift bk li i).take (li - 1)
      = bk.take i ++ (bk.drop (i + 1)).take (li - 1 - i) := by
  unfold removeShift
  refine List.take_left' ?_
  rw [List.length_append, List.length_take, List.length_take, List.length_drop]
  omega

theorem removeShift_length {bk : List Change} {li i : Nat} (h1 : i < li)
    (h2 : li ≤ bk.length) : (removeShift bk li i).length = bk.length := by
  unfold removeShift
  rw [List.length_append, List.length_append, List.length_take, List.length_take,
    List.length_drop, List.length_drop]
  omega

theorem skipStep_err (dropped : List String) (e : String) (a : Nat) :
    skipStep dropped (.error e) a = .error e := rfl

theorem skipStep_ok (dropped : List String) (bk : List Change) (li a : Nat) :
    skipStep dropped (.ok (bk, li)) a =
      match bk.get? a with
      | none => .ok (bk, li)
      | some c =>
        if autoSkipped dropped c then
          if a < li then .ok (removeShift bk li a, li - 1)
          else .error "runtime error: slice bounds out of range"
        else .ok (bk, li) := rfl

/-- Any non-`DropIndex` input edit survives `skipAutoChanges`. -/
theorem skipAuto_mem {cs l : List Change} {ch : Change} (hch : ch ∈ cs)
    (hnd : isDropIndexC ch = false) (h : skipAutoChanges cs = .ok l) : ch ∈ l := by
  unfold skipAutoChanges at h
  dsimp only at h
  have hinv := foldl_inv (fun st => ∀ bk li,
      st = .ok (bk, li) → li ≤ bk.length ∧ ch ∈ bk.take li)
    (skipStep (droppedCols cs)) ?_ (List.range cs.length) (.ok (cs, cs.length)) ?_
  · split at h
    · cases h
    · next bk li hfold =>
      rw [Except.ok.injEq] at h
      rw [← h]
      exact (hinv bk li hfold).2
  · intro st a hst bk' li' heq
    match st with
    | .error e => rw [skipStep_err] at heq; cases heq
    | .ok (bk, li) =>
      obtain ⟨hle, hmem⟩ := hst bk li rfl
      rw [skipStep_ok] at heq
      cases hget : bk.get? a with
      | none =>
        simp only [hget] at heq
        rw [Except.ok.injEq, Prod.mk.injEq] at heq
        rw [← heq.1, ← heq.2]
        exact ⟨hle, hmem⟩
      | some c =>
        simp only [hget] at heq
        split at heq
        · next hskipc =>
          split at heq
          · next hlt =>
            rw [Except.ok.injEq, Prod.mk.injEq] at heq
            rw [← heq.1, ← heq.2]
            refine ⟨by rw [removeShift_length hlt hle]; omega, ?_⟩
            rw [removeShift_take hlt hle]
            rw [take_live_decomp hget hlt hle] at hmem
            rcases List.mem_append.mp hmem with hm1 | hm2
            · exact List.mem_append_left _ hm1
            · rcases List.mem_cons.mp hm2 with hm3 | hm4
              · exfalso
                rw [hm3] at hnd
                rw [autoSkipped_isDropIndex hskipc] at hnd
                cases hnd
              · exact List.mem_append_right _ hm4
          · cases heq
        · rw [Except.ok.injEq, Prod.mk.injEq] at heq
          rw [← heq.1, ← heq.2]
          exact ⟨hle, hmem⟩
  · intro bk li heq
    rw [Except.ok.injEq, Prod.mk.injEq] at heq
    rw [← heq.1, ← heq.2]
    exact ⟨Nat.le_refl _, by rw [List.take_length]; exact hch⟩

/-- A change list with no `DropIndex` edit passes `skipAutoChanges`
unchanged. -/
theorem skipAuto_id {cs : List Change} (h : ∀ ch ∈ cs, isDropIndexC ch = false) :
    skipAutoChanges cs = .ok cs := by
  unfold skipAutoChanges
  dsimp only
  have hinv := foldl_inv (fun st => st = .ok (cs, cs.length))
    (skipStep (droppedCols cs)) ?_ (List.range cs.length) (.ok (cs, cs.length)) rfl
  · rw [hinv]
    simp [List.take_length]
  · intro st a hst
    rw [hst, skipStep_ok]
    cases hget : cs.get? a with
    | none => simp only [hget]
    | some c =>
      simp only [hget]
      have hmem : c ∈ cs := List.get?_mem hget
      have hns : autoSkipped (droppedCols cs) c = false := by
        by_contra hcontra
        rw [Bool.not_eq_false] at hcontra
        have hdi := autoSkipped_isDropIndex hcontra
        rw [h c hmem] at hdi
        cases hdi
      rw [hns]
      simp

/-! ## `modifyTable` and plan-level lemmas -/

theorem alterStep_ok_inv {conn : Conn} {acct : List MChange × Table}
    {bucket : List Change} {out2 : List MChange × Table}
    (h : alterStep conn acct bucket = .ok out2) :
    (bucket = [] ∧ out2 = acct) ∨
    (bucket ≠ [] ∧ ∃ mc, alterTable conn acct.2 bucket = .ok (mc, out2.2) ∧
      out2.1 = acct.1 ++ [mc]) := by
  unfold alterStep at h
  split at h
  · next hemp =>
    rw [Except.ok.injEq] at h
    exact Or.inl ⟨List.isEmpty_iff.mp hemp, h.symm⟩
  · next hemp =>
    split at h
    · cases h
    · next mc t' hat =>
      rw [Except.ok.injEq] at h
      refine Or.inr ⟨fun hc => hemp (by rw [hc]; rfl), mc, ?_, by rw [← h]⟩
      rw [← h]
      exact hat

/-- The shape of a successful `modifyTable`: the elided list and its two
buckets exist, at most two `ALTER TABLE` statements are emitted (none for
an empty bucket, bucket 0's first), and each statement's source is the
modification carrying exactly that bucket. -/
theorem modifyTable_ok_inv {conn : Conn} {t : Table} {cs : List Change}
    {out : List MChange} {t2 : Table}
    (h : modifyTable conn t cs = .ok (out, t2)) :
    ∃ l b0 b1, skipAutoChanges cs = .ok l ∧ buckets l = .ok (b0, b1) ∧
      out.map (fun mc => mc.source)
        = (if b0.isEmpty then [] else [Change.modifyTable t b0])
          ++ (if b1.isEmpty then [] else [Change.modifyTable t b1]) ∧
      out.length ≤ 2 ∧
      (∀ mc ∈ out, ∃ r, mc.cmd = "ALTER TABLE `" ++ t.name ++ "`" ++ r) := by
  unfold modifyTable at h
  cases hskip : skipAutoChanges cs with
  | error e => simp only [hskip] at h; cases h
  | ok l =>
    simp only [hskip] at h
    cases hb : buckets l with
    | error e => simp only [hb] at h; cases h
    | ok p =>
      obtain ⟨b0, b1⟩ := p
      simp only [hb] at h
      cases hs0 : alterStep conn ([], t) b0 with
      | error e => simp only [hs0] at h; cases h
      | ok acct =>
        simp only [hs0] at h
        refine ⟨l, b0, b1, rfl, hb, ?_⟩
        have hdrops : ∀ ch ∈ b0, dropOnly ch = true := buckets_b0_dropOnly hb
        rcases alterStep_ok_inv hs0 with ⟨hb0e, hacct⟩ | ⟨hb0ne, mc0, hat0, hacct1⟩
        · -- bucket 0 empty
          have hb0i : b0.isEmpty = true := by rw [hb0e]; rfl
          rcases alterStep_ok_inv h with ⟨hb1e, hout⟩ | ⟨hb1ne, mc1, hat1, hout1⟩
          · have hb1i : b1.isEmpty = true := by rw [hb1e]; rfl
            rw [Prod.mk.injEq] at hout
            have hout0 : out = acct.1 := by rw [hout.1, hacct]
            rw [hout0, hacct, if_pos hb0i, if_pos hb1i]
            simp
          · have hb1i : ¬b1.isEmpty = true := fun hc =>
              hb1ne (List.isEmpty_iff.mp hc)
            obtain ⟨hsrc1, hcmd1, -, -⟩ := alterTable_ok_inv (by
              rw [hacct] at hat1; exact hat1)
            rw [hacct] at hout1
            simp only at hout1
            rw [hout1, if_pos hb0i, if_neg hb1i]
            refine ⟨by simp [hsrc1], by simp, ?_⟩
            intro mc hmc
            simp only [List.nil_append, List.mem_singleton] at hmc
            rw [hmc]
            exact hcmd1
        · -- bucket 0 nonempty
          have hb0i : ¬b0.isEmpty = true := fun hc => hb0ne (List.isEmpty_iff.mp hc)
          obtain ⟨hsrc0, hcmd0, -, ht0⟩ := alterTable_ok_inv hat0
          have hacct2 : acct.2 = t := ht0 hdrops
          rcases alterStep_ok_inv h with ⟨hb1e, hout⟩ | ⟨hb1ne, mc1, hat1, hout1⟩
          · have hb1i : b1.isEmpty = true := by rw [hb1e]; rfl
            rw [Prod.mk.injEq] at hout
            rw [hout.1, hacct1, if_neg hb0i, if_pos hb1i]
            refine ⟨by simp [hsrc0], by simp, ?_⟩
            intro mc hmc
            simp only [List.nil_append, List.mem_singleton] at hmc
            rw [hmc]
            exact hcmd0
          · have hb1i : ¬b1.isEmpty = true := fun hc =>
              hb1ne (List.isEmpty_iff.mp hc)
            rw [hacct2] at hat1
            simp only at hat1 hout1
            obtain ⟨hsrc1, hcmd1, -, -⟩ := alterTable_ok_inv hat1
            rw [hout1, hacct1, if_neg hb0i, if_neg hb1i]
            refine ⟨by simp [hsrc0, hsrc1], by simp, ?_⟩
            intro mc hmc
            simp only [List.nil_append, List.mem_append, List.mem_singleton] at hmc
            rcases hmc with hmc | hmc
            · rw [hmc]; exact hcmd0
            · rw [hmc]; exact hcmd1

theorem modifyTable_error_of_dropAttr (conn : Conn) (t : Table) {cs : List Change}
    {a : Attr} (hm : Change.dropAttr a ∈ cs) :
    ∃ e, modifyTable conn t cs = .error e := by
  cases hskip : skipAutoChanges cs with
  | error e => exact ⟨e, by unfold modifyTable; simp only [hskip]⟩
  | ok l =>
    have hmem : Change.dropAttr a ∈ l := skipAuto_mem hm rfl hskip
    obtain ⟨e, he⟩ := buckets_error_of_dropAttr hmem
    exact ⟨e, by unfold modifyTable; simp only [hskip, he]⟩

theorem planLoop_acc {conn : Conn} :
    ∀ {l : List Change} {acc out : List MChange},
      planLoop conn l acc = .ok out → ∃ tail, out = acc ++ tail := by
  intro l
  induction l with
  | nil =>
    intro acc out h
    unfold planLoop at h
    rw [Except.ok.injEq] at h
    exact ⟨[], by rw [← h, List.append_nil]⟩
  | cons ch rest ih =>
    intro acc out h
    unfold planLoop at h
    match ch with
    | .addTable t extra =>
      simp only at h
      split at h
      · cases h
      · next mc t' heq =>
        obtain ⟨tail, htail⟩ := ih h
        refine ⟨[mc] ++ tail, ?_⟩
        rw [htail, List.append_assoc]
    | .dropTable t extra =>
      obtain ⟨tail, htail⟩ := ih h
      refine ⟨[dropTableChange t extra] ++ tail, ?_⟩
      rw [htail, List.append_assoc]
    | .modifyTable t cs =>
      simp only at h
      split at h
      · cases h
      · next mcs t' heq =>
        obtain ⟨tail, htail⟩ := ih h
        refine ⟨mcs ++ tail, ?_⟩
        rw [htail, List.append_assoc]
    | .addSchema s extra => cases h
    | .dropSchema s extra => cases h
    | .addColumn c => cases h
    | .modifyColumn src dst k => cases h
    | .dropColumn c => cases h
    | .addIndex i => cases h
    | .modifyIndex src dst k => cases h
    | .dropIndex i => cases h
    | .addForeignKey f => cases h
    | .modifyForeignKey src dst k => cases h
    | .dropForeignKey f => cases h
    | .addAttr a => cases h
    | .modifyAttr src dst => cases h
    | .dropAttr a => cases h

/-- The planning-loop rejects a list containing a change with no loop case
or a modification with a `DropAttr` edit. -/
theorem planLoop_err (conn : Conn) :
    ∀ {l : List Change} (acc : List MChange) {ch : Change}, ch ∈ l →
      supportedTop ch = false ∨ hasDropAttrEdit ch = true →
      ∃ e, planLoop conn l acc = .error e := by
  intro l
  induction l with
  | nil => intro acc ch hm _; cases hm
  | cons hd rest ih =>
    intro acc ch hm hbad
    rcases List.mem_cons.mp hm with hc | hc
    · subst hc
      rcases hbad with hbad | hbad
      · cases ch <;> simp only [supportedTop] at hbad
        all_goals first
          | exact absurd hbad (by decide)
          | exact ⟨_, rfl⟩
      · match ch, hbad with
        | .modifyTable t cs, hbad =>
          have hda : ∃ a, Change.dropAttr a ∈ cs := by
            simp only [hasDropAttrEdit, List.any_eq_true] at hbad
            obtain ⟨x, hx, hxd⟩ := hbad
            cases x <;> simp only [isDropAttrC] at hxd
            all_goals first
              | exact absurd hxd (by decide)
              | exact ⟨_, hx⟩
          obtain ⟨a, ha⟩ := hda
          obtain ⟨e, he⟩ := modifyTable_error_of_dropAttr conn t ha
          exact ⟨e, by simp only [planLoop, he]⟩
    · match hd with
      | .addTable t extra =>
        cases hat : addTable conn t extra with
        | error e => exact ⟨e, by simp only [planLoop, hat]⟩
        | ok p =>
          obtain ⟨mc, t'⟩ := p
          obtain ⟨e, he⟩ := ih (acc ++ [mc]) hc hbad
          exact ⟨e, by simp only [planLoop, hat]; exact he⟩
      | .dropTable t extra =>
        obtain ⟨e, he⟩ := ih (acc ++ [dropTableChange t extra]) hc hbad
        exact ⟨e, by simp only [planLoop]; exact he⟩
      | .modifyTable t cs =>
        cases hmt : modifyTable conn t cs with
        | error e => exact ⟨e, by simp only [planLoop, hmt]⟩
        | ok p =>
          obtain ⟨mcs, t'⟩ := p
          obtain ⟨e, he⟩ := ih (acc ++ mcs) hc hbad
          exact ⟨e, by simp only [planLoop, hmt]; exact he⟩
      | .addSchema s extra => exact ⟨_, rfl⟩
      | .dropSchema s extra => exact ⟨_, rfl⟩
      | .addColumn c => exact ⟨_, rfl⟩
      | .modifyColumn src dst k => exact ⟨_, rfl⟩
      | .dropColumn c => exact ⟨_, rfl⟩
      | .addIndex i => exact ⟨_, rfl⟩
      | .modifyIndex src dst k => exact ⟨_, rfl⟩
      | .dropIndex i => exact ⟨_, rfl⟩
      | .addForeignKey f => exact ⟨_, rfl⟩
      | .modifyForeignKey src dst k => exact ⟨_, rfl⟩
      | .dropForeignKey f => exact ⟨_, rfl⟩
      | .addAttr a => exact ⟨_, rfl⟩
      | .modifyAttr src dst => exact ⟨_, rfl⟩
      | .dropAttr a => exact ⟨_, rfl⟩

/-! ## `topLevel`, `plan` and `PlanChanges` lemmas -/

/-- A non-schema change passes through `topLevel` into the planned list. -/
theorem topLevel_keep : ∀ {cs : List Change} {ch : Change}, ch ∈ cs →
    isSchemaCh ch = false → ch ∈ (topLevel cs).2 := by
  intro cs
  induction cs with
  | nil => intro ch hm _; cases hm
  | cons hd rest ih =>
    intro ch hm hns
    rcases List.mem_cons.mp hm with hc | hc
    · subst hc
      cases ch <;> simp only [isSchemaCh] at hns
      all_goals first
        | exact absurd hns (by decide)
        | simp [topLevel]
    · have := ih hc hns
      cases hd <;> simp [topLevel, this]

/-- An `AddSchema` change emits its `CREATE DATABASE` change. -/
theorem topLevel_addSchema : ∀ {cs : List Change} {s : SchemaObj} {extra : List Clause},
    Change.addSchema s extra ∈ cs → addSchemaChange s extra ∈ (topLevel cs).1 := by
  intro cs
  induction cs with
  | nil => intro s extra hm; cases hm
  | cons hd rest ih =>
    intro s extra hm
    rcases List.mem_cons.mp hm with hc | hc
    · subst hc
      simp [topLevel]
    · have := ih hc
      cases hd <;> simp [topLevel, this]

/-- A `DropSchema` change emits its `DROP DATABASE` change. -/
theorem topLevel_dropSchema : ∀ {cs : List Change} {s : SchemaObj} {extra : List Clause},
    Change.dropSchema s extra ∈ cs → dropSchemaChange s extra ∈ (topLevel cs).1 := by
  intro cs
  induction cs with
  | nil => intro s extra hm; cases hm
  | cons hd rest ih =>
    intro s extra hm
    rcases List.mem_cons.mp hm with hc | hc
    · subst hc
      simp [topLevel]
    · have := ih hc
      cases hd <;> simp [topLevel, this]

theorem plan_ok_inv {conn : Conn} {cs : List Change} {ms : List MChange}
    (h : plan conn cs = .ok ms) :
    planLoop conn (topLevel cs).2 (topLevel cs).1 = .ok ms := by
  unfold plan at h
  exact h

theorem plan_err_of_bad (conn : Conn) {cs : List Change} {ch : Change}
    (hm : ch ∈ cs) (hbad : supportedTop ch = false ∨ hasDropAttrEdit ch = true) :
    ∃ e, plan conn cs = .error e := by
  have hns : isSchemaCh ch = false := by
    rcases hbad with hbad | hbad
    · cases ch <;> first
        | rfl
        | simp_all [supportedTop]
    · cases ch <;> first
        | rfl
        | simp_all [hasDropAttrEdit]
  have hmem := topLevel_keep hm hns
  obtain ⟨e, he⟩ := planLoop_err conn (topLevel cs).1 hmem hbad
  exact ⟨e, by unfold plan; exact he⟩

theorem reversibleCalc_eq (ms : List MChange) :
    reversibleCalc ms = ms.all fun c => c.reverse != "" := by
  unfold reversibleCalc
  suffices haux : ∀ (l : List MChange) (b : Bool),
      (l.foldl (fun r c => if c.reverse = "" then false else r) b)
        = (b && l.all fun c => c.reverse != "") by
    rw [haux ms true, Bool.true_and]
  intro l
  induction l with
  | nil => intro b; simp
  | cons c rest ih =>
    intro b
    rw [List.foldl_cons, ih, List.all_cons]
    by_cases hc : c.reverse = ""
    · simp [hc]
    · have hb : (c.reverse != "") = true := bne_iff_ne.mpr hc
      rw [if_neg hc, hb, Bool.true_and]

theorem planChanges_ok_inv {conn : Conn} {nm : String} {cs : List Change} {p : Plan}
    (h : PlanChanges conn nm cs = .ok p) :
    ∃ ms, plan conn cs = .ok ms ∧ p.changes = ms ∧ p.reversible = reversibleCalc ms := by
  unfold PlanChanges at h
  cases hp : plan conn cs with
  | error e => rw [hp] at h; cases h
  | ok ms =>
    rw [hp] at h
    rw [Except.ok.injEq] at h
    exact ⟨ms, rfl, by rw [← h], by rw [← h]⟩

/-! ## `column` frame lemmas (the auto-increment promotion) -/

/-- The frame relation of the planner's single table mutation: every field
but the attribute list is untouched, and the attribute list is either
untouched or extended by exactly one non-zero auto-increment attribute
taken from the column, when the table had none. -/
def TFrame (cattrs : List Attr) (t t' : Table) : Prop :=
  t'.name = t.name ∧ t'.columns = t.columns ∧ t'.primaryKey = t.primaryKey ∧
  t'.indexes = t.indexes ∧ t'.foreignKeys = t.foreignKeys ∧
  t'.schemaAttrs = t.schemaAttrs ∧
  (t'.attrs = t.attrs ∨ ∃ v : Int, v ≠ 0 ∧ Attr.autoIncrement v ∈ cattrs ∧
    hasAutoInc t.attrs = false ∧ t'.attrs = t.attrs ++ [Attr.autoIncrement v])

theorem hasAutoInc_append_ai (l : List Attr) (v : Int) :
    hasAutoInc (l ++ [Attr.autoIncrement v]) = true := by
  simp [hasAutoInc, List.any_append]

theorem columnAttrStep_frame {conn : Conn} {cattrs : List Attr} {t : Table}
    {bt : Builder × Table} {a : Attr} (ha : a ∈ cattrs)
    (h : TFrame cattrs t bt.2) : TFrame cattrs t (columnAttrStep conn bt a).2 := by
  obtain ⟨h1, h2, h3, h4, h5, h6, h7⟩ := h
  cases a <;> simp only [columnAttrStep]
  case autoIncrement v =>
    split
    · next hcond =>
      rw [Bool.and_eq_true, decide_eq_true_eq, Bool.not_eq_true'] at hcond
      rcases h7 with h7 | ⟨w, hw, hwc, hwa, hweq⟩
      · refine ⟨h1, h2, h3, h4, h5, h6, Or.inr ⟨v, hcond.1, ha, ?_, ?_⟩⟩
        · rw [← h7]; exact hcond.2
        · simp only
          rw [h7]
      · exfalso
        rw [hweq, hasAutoInc_append_ai] at hcond
        cases hcond.2
    · exact ⟨h1, h2, h3, h4, h5, h6, h7⟩
  all_goals exact ⟨h1, h2, h3, h4, h5, h6, h7⟩

theorem columnAttrFold_frame {conn : Conn} {cattrs : List Attr} {t : Table} :
    ∀ (as' : List Attr) (bt : Builder × Table), (∀ a ∈ as', a ∈ cattrs) →
      TFrame cattrs t bt.2 → TFrame cattrs t (as'.foldl (columnAttrStep conn) bt).2
  | [], _, _, h => h
  | a :: rest, bt, hsub, h =>
    columnAttrFold_frame rest (columnAttrStep conn bt a)
      (fun x hx => hsub x (List.mem_cons_of_mem _ hx))
      (columnAttrStep_frame (hsub a (List.mem_cons_self _ _)) h)

theorem column_tframe (conn : Conn) (t : Table) (c : Column) (b : Builder) :
    TFrame c.attrs t (column conn t c b).2 := by
  unfold column
  exact columnAttrFold_frame c.attrs _ (fun a ha => ha)
    ⟨rfl, rfl, rfl, rfl, rfl, rfl, Or.inl rfl⟩

/-- The rendered `DROP DATABASE` statement for a schema. -/
theorem dropDatabase_buf (nm : String) :
    ((Build "DROP DATABASE").ident nm).buf = "DROP DATABASE `" ++ nm ++ "`" := by
  show (((Build "DROP DATABASE").pushTok
    (String.singleton '`' ++ nm ++ String.singleton '`'))).buf = _
  have htok : String.singleton '`' ++ nm ++ String.singleton '`' ≠ "" :=
    string_append_ne_left (string_append_ne_left (by decide))
  unfold Builder.pushTok
  rw [if_neg htok]
  have hbuf : (Build "DROP DATABASE").buf = "DROP DATABASE" := rfl
  rw [hbuf]
  rw [if_neg (by decide : ¬("DROP DATABASE" : String) = "")]
  show "DROP DATABASE" ++ " " ++ (("`" ++ nm) ++ "`") = ("DROP DATABASE `" ++ nm) ++ "`"
  rw [show ("DROP DATABASE" : String) ++ " " = "DROP DATABASE " from rfl,
    ← String.append_assoc, ← String.append_assoc,
    show ("DROP DATABASE " : String) ++ "`" = "DROP DATABASE `" from rfl]

/-! ## Concrete fixtures for witnesses and counterexamples -/

def defConn : Conn := {}

def tbl0 : Table := { name := "t" }

def c1col : Column := { name := "c1", ctype := { typ := CType.intT "int", null := false } }

def c2col : Column := { name := "c2", ctype := { typ := CType.intT "int", null := false } }

def i1idx : Index := { name := "i1", parts := [{ column := some "c1" }] }

def i2idx : Index := { name := "i2", parts := [{ column := some "c2" }] }

def fk1 : ForeignKey :=
  { symbol := "fk1", columns := ["c1"], refTable := "rt", refColumns := ["rc"] }

def fk2 : ForeignKey :=
  { symbol := "fk2", columns := ["c1"], refTable := "rt", refColumns := ["rc"] }

def emptyB : Builder := { buf := "" }

def tsCol : Column :=
  { name := "ts", ctype := { typ := CType.timeT "timestamp", null := true },
    default := some (DefaultVal.rawExpr "CURRENT_TIMESTAMP(6)") }

def intDefCol : Column :=
  { name := "n", ctype := { typ := CType.intT "int", null := true },
    default := some (DefaultVal.literal "5") }

def defaultPlan : Plan :=
  { name := "", reversible := false, transactional := false, changes := [] }

def mcFallback : MChange := { cmd := "", source := Change.addAttr Attr.check }

def c1wCs : List Change := [Change.addSchema { name := "s" } []]

def c1wPlan : Plan := (PlanChanges defConn "m" c1wCs).toOption.getD defaultPlan

def c2cs : List Change := [Change.modifyForeignKey fk1 fk2 changeRefTable]

def c2res : List MChange × Table :=
  (modifyTable defConn tbl0 c2cs).toOption.getD ([], tbl0)

def c2l : List Change := (skipAutoChanges c2cs).toOption.getD []

def c2bk : List Change × List Change := (buckets c2l).toOption.getD ([], [])

def c3cs : List Change := [Change.dropColumn c1col, Change.addColumn c2col]

def c3res : MChange × Table :=
  (alterTable defConn tbl0 c3cs).toOption.getD (mcFallback, tbl0)

def c4cs : List Change := [Change.addForeignKey fk2, Change.dropForeignKey fk1]

def c5cs : List Change :=
  [Change.dropIndex i1idx, Change.dropIndex i2idx,
   Change.dropColumn c1col, Change.dropColumn c2col]

def c5panicCs : List Change :=
  [Change.dropColumn c1col, Change.dropColumn c2col,
   Change.dropIndex i1idx, Change.dropIndex i2idx]

def c8cs : List Change := [Change.addAttr (Attr.autoIncrement 0)]

def c10cs : List Change :=
  [Change.addSchema { name := "s" } [], Change.dropSchema { name := "s2" } []]

def c10p : Plan := (PlanChanges defConn "m" c10cs).toOption.getD defaultPlan

/-! ## Claim theorems -/

/-- C1: for every change list for which `PlanChanges` succeeds, the
returned plan has `Reversible = true` iff every change in its `Changes`
sequence has a non-empty reverse text — the flag is recomputed from the
emitted changes after planning. -/
theorem c1_plan_reversible_iff (conn : Conn) (nm : String) (cs : List Change)
    (p : Plan) (h : PlanChanges conn nm cs = .ok p) :
    p.reversible = true ↔ ∀ mc ∈ p.changes, mc.reverse ≠ "" := by
  obtain ⟨ms, hplan, hch, hrev⟩ := planChanges_ok_inv h
  rw [hch, hrev, reversibleCalc_eq, List.all_eq_true]
  constructor
  · intro hall mc hmc
    exact bne_iff_ne.mp (hall mc hmc)
  · intro hall mc hmc
    exact bne_iff_ne.mpr (hall mc hmc)

theorem c1_plan_reversible_iff_witness :
    c1wPlan.reversible = true ↔ ∀ mc ∈ c1wPlan.changes, mc.reverse ≠ "" :=
  c1_plan_reversible_iff defConn "m" c1wCs c1wPlan (by rfl)

/-- C3: an `ALTER TABLE` batch carries a non-empty reverse iff every clause
in it is individually reversible; a `DropColumn`, `DropIndex`,
`DropForeignKey` or `AddAttr` clause anywhere in the batch forces the
whole batch's reverse to be empty. -/
theorem c3_batch_reverse_iff (conn : Conn) (t : Table) (cs : List Change)
    (mc : MChange) (t2 : Table) (h : alterTable conn t cs = .ok (mc, t2)) :
    mc.reverse ≠ "" ↔ ∀ ch ∈ cs, irrevClause ch = false :=
  (alterTable_ok_inv h).2.2.1

theorem c3_batch_reverse_iff_witness :
    (c3res.1.reverse ≠ "" ↔ ∀ ch ∈ c3cs, irrevClause ch = false) :=
  c3_batch_reverse_iff defConn tbl0 c3cs c3res.1 c3res.2 (by rfl)

/-- C5: the claim says an index drop whose parts are all dropped columns is
always elided; the code's range loop mutates the slice it ranges over, so
with two such index drops the second survives (the statements still emit
`DROP INDEX i2`), and with the drops ordered after the column drops the
loop evaluates `changes[i+1:]` past the live length and panics. -/
theorem c5_skip_auto_bug :
    skipAutoChanges c5cs
      = .ok [Change.dropIndex i2idx, Change.dropColumn c1col, Change.dropColumn c2col] ∧
    autoSkipped (droppedCols c5cs) (Change.dropIndex i2idx) = true ∧
    ((modifyTable defConn tbl0 c5cs).map fun r => r.1.map fun mc => mc.cmd)
      = .ok ["ALTER TABLE `t` DROP INDEX `i2`",
             "ALTER TABLE `t` DROP COLUMN `c1`, DROP COLUMN `c2`"] ∧
    skipAutoChanges c5panicCs = .error "runtime error: slice bounds out of range" :=
  ⟨rfl, rfl, rfl, rfl⟩

/-- C9: rendering a column never mutates the owning table except to append
a table-level auto-increment attribute taken from the column when its
start value is non-zero and the table has none; every other field of the
table is unchanged. -/
theorem c9_column_mutation_frame (conn : Conn) (t : Table) (c : Column) (b : Builder) :
    (column conn t c b).2.name = t.name ∧
    (column conn t c b).2.columns = t.columns ∧
    (column conn t c b).2.primaryKey = t.primaryKey ∧
    (column conn t c b).2.indexes = t.indexes ∧
    (column conn t c b).2.foreignKeys = t.foreignKeys ∧
    (column conn t c b).2.schemaAttrs = t.schemaAttrs ∧
    ((column conn t c b).2.attrs = t.attrs ∨
      ∃ v : Int, v ≠ 0 ∧ Attr.autoIncrement v ∈ c.attrs ∧
        hasAutoInc t.attrs = false ∧
        (column conn t c b).2.attrs = t.attrs ++ [Attr.autoIncrement v]) :=
  column_tframe conn t c b

/-- C6 (counterexample): the claim's current-timestamp rule requires the
raw expression to *be* the dialect token, so it predicts that
`CURRENT_TIMESTAMP(6)` on a time column falls to the quote-everything
rule; the code tests a case-insensitive prefix and passes it through
unquoted. -/
theorem c6_default_rules_counterexample :
    tsCol.default = some (DefaultVal.rawExpr "CURRENT_TIMESTAMP(6)") ∧
    (columnDefault tsCol emptyB).buf = "DEFAULT CURRENT_TIMESTAMP(6)" ∧
    ((emptyB.P "DEFAULT").P (specClaimedDefaultText tsCol.ctype.typ
        (DefaultVal.rawExpr "CURRENT_TIMESTAMP(6)"))).buf
      = "DEFAULT \"CURRENT_TIMESTAMP(6)\"" ∧
    (columnDefault tsCol emptyB).buf
      ≠ ((emptyB.P "DEFAULT").P (specClaimedDefaultText tsCol.ctype.typ
          (DefaultVal.rawExpr "CURRENT_TIMESTAMP(6)"))).buf :=
  ⟨rfl, rfl, rfl, by decide⟩

/-- C6 (amended): the default-value formatter applies the spec's rules in
priority order — numeric-typed columns unquoted, hexadecimal-looking
values unquoted, parenthesized raw expressions unquoted, raw expressions
*beginning with* the dialect's case-insensitive current-timestamp token on
a time-typed column unquoted, everything else quoted (re-using existing
quoting). -/
theorem c6_default_rules (c : Column) (b : Builder) (d : DefaultVal)
    (h : c.default = some d) :
    columnDefault c b = (b.P "DEFAULT").P (specDefaultText c.ctype.typ d) := by
  unfold columnDefault
  rw [h]
  cases d with
  | literal v =>
    simp only [specDefaultText]
    by_cases hn : hasNumericDefault c.ctype.typ
    · simp [hn]
    · by_cases hx : isHex v <;> simp [hn, hx]
  | rawExpr x =>
    simp only [specDefaultText]
    by_cases hn : hasNumericDefault c.ctype.typ
    · simp [hn]
    · by_cases hx : isHex x
      · simp [hn, hx]
      · by_cases hp : strStarts x "(" && strEnds x ")"
        · simp [hn, hx, hp]
        · by_cases ht : isTimeType c.ctype.typ && strStarts (strToLower x) currentTS
          · simp [hn, hx, hp, ht]
          · simp [hn, hx, hp, ht]

theorem c6_default_rules_witness :
    columnDefault intDefCol emptyB
      = (emptyB.P "DEFAULT").P (specDefaultText intDefCol.ctype.typ
          (DefaultVal.literal "5")) :=
  c6_default_rules intDefCol emptyB (DefaultVal.literal "5") rfl

/-- C7: a change list containing an unsupported change — a top-level
change that is none of the five supported kinds, or a table modification
containing a `DropAttr` edit — makes `PlanChanges` fail: no partial plan
is returned. -/
theorem c7_unsupported_change_errors (conn : Conn) (nm : String) (cs : List Change)
    (h : (∃ ch ∈ cs, supportedTop ch = false) ∨
      (∃ ch ∈ cs, hasDropAttrEdit ch = true)) :
    ∃ e, PlanChanges conn nm cs = .error e := by
  have hbad : ∃ ch ∈ cs, supportedTop ch = false ∨ hasDropAttrEdit ch = true := by
    rcases h with ⟨ch, hm, hb⟩ | ⟨ch, hm, hb⟩
    · exact ⟨ch, hm, Or.inl hb⟩
    · exact ⟨ch, hm, Or.inr hb⟩
  obtain ⟨ch, hm, hb⟩ := hbad
  obtain ⟨e, he⟩ := plan_err_of_bad conn hm hb
  refine ⟨e, ?_⟩
  unfold PlanChanges
  rw [he]

theorem c7_unsupported_change_errors_witness :
    ∃ e, PlanChanges defConn "m" [Change.addColumn c1col] = .error e :=
  c7_unsupported_change_errors defConn "m" [Change.addColumn c1col]
    (Or.inl ⟨Change.addColumn c1col, List.mem_cons_self _ _, rfl⟩)

/-- The bucket loop sends a batch of pure attribute edits entirely to
bucket 1. -/
theorem buckets_attrOnly {cs : List Change}
    (h : ∀ ch ∈ cs, isAttrChange ch = true) : buckets cs = .ok ([], cs) := by
  induction cs with
  | nil => rfl
  | cons hd rest ih =>
    have hhd := h hd (List.mem_cons_self _ _)
    have hrest := ih fun ch hc => h ch (List.mem_cons_of_mem _ hc)
    unfold buckets
    have hnd : isDropAttrC hd = false := by
      cases hd <;> simp_all [isAttrChange, isDropAttrC]
    rw [if_neg (by rw [hnd]; exact Bool.false_ne_true), hrest]
    cases hd <;> simp_all [isAttrChange, bucketsContrib]

/-- C8: when any table-level attribute of an `ALTER TABLE` batch cannot be
rendered (an auto-increment attribute with value zero), all such errors
are collected and joined into one message, the batch emits no change, and
— for an attribute-only modification — planning returns that very
error. -/
theorem c8_attr_errors_abort (conn : Conn) (t : Table) (cs : List Change)
    (nm : String) (h : batchErrs cs ≠ []) :
    alterTable conn t cs
      = .error ("alter table: " ++ String.intercalate ", " (batchErrs cs)) ∧
    ((∀ ch ∈ cs, isAttrChange ch = true) →
      PlanChanges conn nm [Change.modifyTable t cs]
        = .error ("alter table: " ++ String.intercalate ", " (batchErrs cs))) := by
  refine ⟨alterTable_error_of_errs conn t cs h, fun hattr => ?_⟩
  have hskip : skipAutoChanges cs = .ok cs := by
    refine skipAuto_id fun ch hc => ?_
    have := hattr ch hc
    cases ch <;> simp_all [isAttrChange, isDropIndexC]
  have hb : buckets cs = .ok ([], cs) := buckets_attrOnly hattr
  have hne : ¬cs.isEmpty = true := by
    intro hc
    rw [List.isEmpty_iff.mp hc] at h
    exact h rfl
  have hmt : modifyTable conn t cs
      = .error ("alter table: " ++ String.intercalate ", " (batchErrs cs)) := by
    unfold modifyTable
    simp only [hskip, hb]
    have hstep0 : alterStep conn ([], t) [] = .ok ([], t) := rfl
    simp only [hstep0]
    unfold alterStep
    rw [if_neg hne, alterTable_error_of_errs conn t cs h]
  unfold PlanChanges plan topLevel
  simp only [detachCycles, planLoop, hmt]

theorem c8_attr_errors_abort_witness :
    alterTable defConn tbl0 c8cs
      = .error ("alter table: " ++ String.intercalate ", " (batchErrs c8cs)) ∧
    PlanChanges defConn "m" [Change.modifyTable tbl0 c8cs]
      = .error ("alter table: " ++ String.intercalate ", " (batchErrs c8cs)) :=
  ⟨(c8_attr_errors_abort defConn tbl0 c8cs "m" (by decide)).1,
   (c8_attr_errors_abort defConn tbl0 c8cs "m" (by decide)).2 (by decide)⟩

/-- C2: a table modification emits at most two `ALTER TABLE` statements —
bucket 0's statement (if any) before bucket 1's, empty buckets emitting
nothing; every surviving `DropIndex` lands in bucket 0, every
`ModifyForeignKey` is decomposed into a `DropForeignKey` in bucket 0 (plus
a drop of the auto-created index named after the old key when the
reference changed) and an `AddForeignKey` in bucket 1, every `ModifyIndex`
into a `DropIndex` in bucket 0 and an `AddIndex` in bucket 1, every other
edit stays in bucket 1, and bucket 0 holds only index/foreign-key
drops. -/
theorem c2_modify_bucket_policy (conn : Conn) (t : Table) (cs : List Change)
    (out : List MChange) (t2 : Table) (l b0 b1 : List Change)
    (h : modifyTable conn t cs = .ok (out, t2))
    (hl : skipAutoChanges cs = .ok l)
    (hb : buckets l = .ok (b0, b1)) :
    out.length ≤ 2 ∧
    out.map (fun mc => mc.source)
      = (if b0.isEmpty then [] else [Change.modifyTable t b0])
        ++ (if b1.isEmpty then [] else [Change.modifyTable t b1]) ∧
    (∀ mc ∈ out, ∃ r, mc.cmd = "ALTER TABLE `" ++ t.name ++ "`" ++ r) ∧
    (∀ i, Change.dropIndex i ∈ l → Change.dropIndex i ∈ b0) ∧
    (∀ src dst k, Change.modifyForeignKey src dst k ∈ l →
      Change.dropForeignKey src ∈ b0 ∧ Change.addForeignKey dst ∈ b1 ∧
        (kindIs k refMask = true → autoDropIdx src ∈ b0)) ∧
    (∀ src dst k, Change.modifyIndex src dst k ∈ l →
      Change.dropIndex src ∈ b0 ∧ Change.addIndex dst ∈ b1) ∧
    (∀ ch ∈ l, otherEdit ch = true → ch ∈ b1) ∧
    (∀ ch ∈ b0, dropOnly ch = true) := by
  obtain ⟨l', b0', b1', hl', hb', hmap, hlen, hcmd⟩ := modifyTable_ok_inv h
  rw [hl] at hl'
  rw [Except.ok.injEq] at hl'
  subst hl'
  rw [hb] at hb'
  rw [Except.ok.injEq, Prod.mk.injEq] at hb'
  obtain ⟨hb0, hb1⟩ := hb'
  subst hb0
  subst hb1
  exact ⟨hlen, hmap, hcmd,
    fun i hm => buckets_mem_dropIndex hb hm,
    fun src dst k hm => buckets_mem_mfk hb hm,
    fun src dst k hm => buckets_mem_mix hb hm,
    fun ch hm hoth => buckets_mem_other hb hm hoth,
    buckets_b0_dropOnly hb⟩

theorem c2_modify_bucket_policy_witness :
    c2res.1.length ≤ 2 ∧
    c2res.1.map (fun mc => mc.source)
      = (if c2bk.1.isEmpty then [] else [Change.modifyTable tbl0 c2bk.1])
        ++ (if c2bk.2.isEmpty then [] else [Change.modifyTable tbl0 c2bk.2]) ∧
    (∀ mc ∈ c2res.1, ∃ r, mc.cmd = "ALTER TABLE `" ++ tbl0.name ++ "`" ++ r) ∧
    (∀ i, Change.dropIndex i ∈ c2l → Change.dropIndex i ∈ c2bk.1) ∧
    (∀ src dst k, Change.modifyForeignKey src dst k ∈ c2l →
      Change.dropForeignKey src ∈ c2bk.1 ∧ Change.addForeignKey dst ∈ c2bk.2 ∧
        (kindIs k refMask = true → autoDropIdx src ∈ c2bk.1)) ∧
    (∀ src dst k, Change.modifyIndex src dst k ∈ c2l →
      Change.dropIndex src ∈ c2bk.1 ∧ Change.addIndex dst ∈ c2bk.2) ∧
    (∀ ch ∈ c2l, otherEdit ch = true → ch ∈ c2bk.2) ∧
    (∀ ch ∈ c2bk.1, dropOnly ch = true) :=
  c2_modify_bucket_policy defConn tbl0 c2cs c2res.1 c2res.2 c2l c2bk.1 c2bk.2
    (by rfl) (by rfl) (by rfl)

/-- C4 (counterexample): a modification carrying an explicit
`DropForeignKey fk1` edit and an explicit `AddForeignKey fk2` edit (same
referenced columns, different name), given in the order add-then-drop,
emits one statement in which the ADD clause precedes the
`DROP FOREIGN KEY fk1` clause — the drop does appear after the add for
this input ordering. -/
theorem c4_fk_order_counterexample :
    fk1.columns = fk2.columns ∧ fk1.refColumns = fk2.refColumns ∧
    fk1.symbol ≠ fk2.symbol ∧
    ((modifyTable defConn tbl0 c4cs).map fun r => r.1.map fun mc => mc.cmd)
      = .ok ["ALTER TABLE `t` ADD CONSTRAINT `fk2` FOREIGN KEY (`c1`) REFERENCES `rt` (`rc`), DROP FOREIGN KEY `fk1`"] :=
  ⟨rfl, rfl, by decide, rfl⟩

/-- C4 (amended): when the drop and add arise from one `ModifyForeignKey`
edit (replacing `fk1 = From` by `fk2 = To`), the planner emits exactly two
statements: the first carries the `DropForeignKey` for the old key, the
second the `AddForeignKey` for the new key — the drop always precedes the
add. -/
theorem c4_fk_replacement_order (conn : Conn) (t : Table) (cs : List Change)
    (out : List MChange) (t2 : Table) (l : List Change)
    (src dst : ForeignKey) (k : Nat)
    (h : modifyTable conn t cs = .ok (out, t2))
    (hl : skipAutoChanges cs = .ok l)
    (hm : Change.modifyForeignKey src dst k ∈ l) :
    ∃ mc0 mc1 b0 b1, out = [mc0, mc1] ∧ buckets l = .ok (b0, b1) ∧
      mc0.source = Change.modifyTable t b0 ∧
      mc1.source = Change.modifyTable t b1 ∧
      Change.dropForeignKey src ∈ b0 ∧ Change.addForeignKey dst ∈ b1 := by
  obtain ⟨l', b0, b1, hl', hb, hmap, hlen, hcmd⟩ := modifyTable_ok_inv h
  rw [hl] at hl'
  rw [Except.ok.injEq] at hl'
  subst hl'
  obtain ⟨hdrop, hadd, -⟩ := buckets_mem_mfk hb hm
  have hb0 : ¬b0.isEmpty = true := by
    intro hc
    rw [List.isEmpty_iff.mp hc] at hdrop
    cases hdrop
  have hb1 : ¬b1.isEmpty = true := by
    intro hc
    rw [List.isEmpty_iff.mp hc] at hadd
    cases hadd
  rw [if_neg hb0, if_neg hb1] at hmap
  have hlen2 : out.length = 2 := by
    have := congrArg List.length hmap
    rw [List.length_map] at this
    simpa using this
  obtain ⟨mc0, mc1, hout⟩ := List.length_eq_two.mp hlen2
  subst hout
  simp only [List.map_cons, List.map_nil, List.cons_append, List.nil_append,
    List.cons.injEq, and_true] at hmap
  exact ⟨mc0, mc1, b0, b1, rfl, hb, hmap.1, hmap.2, hdrop, hadd⟩

theorem c4_fk_replacement_order_witness :
    ∃ mc0 mc1 b0 b1, c2res.1 = [mc0, mc1] ∧ buckets c2l = .ok (b0, b1) ∧
      mc0.source = Change.modifyTable tbl0 b0 ∧
      mc1.source = Change.modifyTable tbl0 b1 ∧
      Change.dropForeignKey fk1 ∈ b0 ∧ Change.addForeignKey fk2 ∈ b1 :=
  c4_fk_replacement_order defConn tbl0 c2cs c2res.1 c2res.2 c2l fk1 fk2
    changeRefTable (by rfl) (by rfl)
    (by rw [show c2l = [Change.modifyForeignKey fk1 fk2 changeRefTable] from rfl]
        exact List.mem_cons_self _ _)

/-- C10: every `AddSchema` change emits a change whose reverse is the
`DROP DATABASE` statement for that schema; every `DropSchema` change
emits a change with an empty reverse, so any successful plan containing a
`DropSchema` has `Reversible = false`. -/
theorem c10_schema_reverse (conn : Conn) (nm : String) (cs : List Change)
    (p : Plan) (h : PlanChanges conn nm cs = .ok p) :
    (∀ s extra, Change.addSchema s extra ∈ cs →
      ∃ mc ∈ p.changes, mc.source = Change.addSchema s extra ∧
        mc.reverse = "DROP DATABASE `" ++ s.name ++ "`") ∧
    (∀ s extra, Change.dropSchema s extra ∈ cs →
      (∃ mc ∈ p.changes, mc.source = Change.dropSchema s extra ∧ mc.reverse = "")
        ∧ p.reversible = false) := by
  obtain ⟨ms, hplan, hch, hrev⟩ := planChanges_ok_inv h
  have hloop := plan_ok_inv hplan
  obtain ⟨tail, htail⟩ := planLoop_acc hloop
  constructor
  · intro s extra hm
    have hmem := topLevel_addSchema hm
    refine ⟨addSchemaChange s extra, ?_, rfl, ?_⟩
    · rw [hch, htail]
      exact List.mem_append_left _ hmem
    · show ((Build "DROP DATABASE").ident s.name).buf = _
      rw [dropDatabase_buf]
  · intro s extra hm
    have hmem := topLevel_dropSchema hm
    have hmem2 : dropSchemaChange s extra ∈ p.changes := by
      rw [hch, htail]
      exact List.mem_append_left _ hmem
    refine ⟨⟨dropSchemaChange s extra, hmem2, rfl, rfl⟩, ?_⟩
    rw [hrev, reversibleCalc_eq]
    rw [List.all_eq_false]
    refine ⟨dropSchemaChange s extra, by rw [← hch]; exact hmem2, ?_⟩
    show ¬((dropSchemaChange s extra).reverse != "") = true
    simp [dropSchemaChange]

theorem c10_schema_reverse_witness :
    (∀ s extra, Change.addSchema s extra ∈ c10cs →
      ∃ mc ∈ c10p.changes, mc.source = Change.addSchema s extra ∧
        mc.reverse = "DROP DATABASE `" ++ s.name ++ "`") ∧
    (∀ s extra, Change.dropSchema s extra ∈ c10cs →
      (∃ mc ∈ c10p.changes, mc.source = Change.dropSchema s extra ∧ mc.reverse = "")
        ∧ c10p.reversible = false) :=
  c10_schema_reverse defConn "m" c10cs c10p (by rfl)

end Atlas
